import Mathlib

/-!
Verification of the SimpleGrace merge/format engine (`simple_grace.py`).

The repository edits line-oriented xmgrace plot files.  We shallowly embed the
program: a document is a `List String` of lines (each line, as produced by
Python `readlines`, keeps its trailing newline); Python floats are embedded as
the exact rational value the IEEE double denotes; fallible code returns
`Except`.  Every definition is written to be executable by the kernel
(structural recursion only), so concrete witnesses evaluate by `decide`.
-/

set_option maxRecDepth 10000

namespace SimpleGrace

/-! ## Character-list utilities (Python string primitives) -/

/-- Whether the character list `p` is a prefix of `s` (Python `str.startswith`,
on the character level). -/
def chStarts : List Char → List Char → Bool
  | [], _ => true
  | _ :: _, [] => false
  | a :: as, b :: bs => a = b && chStarts as bs

/-- Python `str.startswith` on Lean strings. -/
def strStarts (p s : String) : Bool := chStarts p.data s.data

/-- Does some suffix of the list satisfy `p`?  (used to model `re.search`). -/
def anyTail (p : List Char → Bool) : List Char → Bool
  | [] => p []
  | c :: cs => p (c :: cs) || anyTail p cs

/-- Python whitespace characters stripped by `int()`. -/
def isPyWs (c : Char) : Bool :=
  c = ' ' || c = '\t' || c = '\n' || c = '\r' || c = '\x0b' || c = '\x0c'

/-! ## Decimal rendering of naturals and integers

Python renders integers in plain decimal (`str(int)`, f-string interpolation
of an `int`).  We implement the standard decimal algorithm with a fuel
argument so that it is structurally recursive and kernel-reducible. -/

/-- One decimal digit character, `0 ≤ d ≤ 9`. -/
def digitCh (d : ℕ) : Char := Char.ofNat (48 + d)

/-- Accumulator-style decimal digits of `n`; `fuel` bounds the recursion and
any `fuel > n` is enough. -/
def natStrGo : ℕ → ℕ → List Char → List Char
  | 0, _, acc => acc
  | fuel + 1, n, acc =>
    if n < 10 then digitCh n :: acc
    else natStrGo fuel (n / 10) (digitCh (n % 10) :: acc)

/-- Decimal rendering of a natural number (Python `str` of a nonnegative int). -/
def natStr (n : ℕ) : String := ⟨natStrGo (n + 1) n []⟩

/-- Decimal rendering of an integer (Python `str` of an int). -/
def intStr (k : ℤ) : String :=
  if k < 0 then "-" ++ natStr k.natAbs else natStr k.natAbs

/-- Value of a list of decimal digit characters. -/
def digitsVal (cs : List Char) : ℕ :=
  cs.foldl (fun a c => a * 10 + (c.toNat - 48)) 0

/-- Parse a nonempty all-digit character list (else `none`). -/
def parseDigits (cs : List Char) : Option ℕ :=
  if cs ≠ [] && cs.all Char.isDigit then some (digitsVal cs) else none

/-- Python `int(s)`: strip surrounding whitespace, optional sign, decimal
digits.  Returns `none` where Python raises `ValueError`.  (Underscore
digit-group separators are not modelled.) -/
def parseIntPy (s : String) : Option ℤ :=
  let t := ((s.data.dropWhile isPyWs).reverse.dropWhile isPyWs).reverse
  match t with
  | '-' :: ds => (parseDigits ds).map (fun n => -(n : ℤ))
  | '+' :: ds => (parseDigits ds).map (fun n => (n : ℤ))
  | ds => (parseDigits ds).map (fun n => (n : ℤ))

/-- The first maximal run of decimal digits in the list, as a number
(models `int(re.findall(r'\d+', line)[0])`; junk value 0 if no digit). -/
def firstDigitRun : List Char → ℕ
  | [] => 0
  | c :: cs =>
    if c.isDigit then digitsVal ((c :: cs).takeWhile Char.isDigit)
    else firstDigitRun cs

/-- `firstDigitRun` on a string. -/
def firstDigitRunS (s : String) : ℕ := firstDigitRun s.data

/-! ## Python values

A tuple component handled by `XMGrace.clean_entry` is a float, a string or an
int.  A Python float is embedded as the exact rational value the IEEE-754
double denotes, plus the special values `±inf` and `nan`. -/

/-- An exact fraction `num / den` (`den` positive, not necessarily reduced).
The Mathlib rational type is not kernel-executable (`Nat.gcd` is
well-founded), so the embedding carries floats as raw fractions and never
normalizes; all arithmetic below is gcd-free. -/
structure Frac where
  num : ℤ
  den : ℕ
deriving DecidableEq

/-- The rational value a `Frac` denotes (for specification statements). -/
def Frac.val (q : Frac) : ℚ := (q.num : ℚ) / (q.den : ℚ)

/-- Strict order on fractions (positive denominators): cross-multiplication. -/
def fracLt (a b : Frac) : Bool := a.num * (b.den : ℤ) < b.num * (a.den : ℤ)

/-- The integer `k` as a fraction. -/
def fracOfInt (k : ℤ) : Frac := ⟨k, 1⟩

/-- Multiply a fraction by `10 ^ k` for an integer `k`. -/
def fracMulPow10 (q : Frac) (k : ℤ) : Frac :=
  if 0 ≤ k then ⟨q.num * 10 ^ k.toNat, q.den⟩ else ⟨q.num, q.den * 10 ^ (-k).toNat⟩

/-- Floor of a fraction. -/
def fracFloor (q : Frac) : ℤ := q.num.fdiv (q.den : ℤ)

/-- Whether the fraction is an integer. -/
def fracIsInt (q : Frac) : Bool := q.num % (q.den : ℤ) = 0

inductive PyFloat
  | finite (q : Frac)
  | inf (neg : Bool)
  | nan
deriving DecidableEq

inductive PyVal
  | float (f : PyFloat)
  | str (s : String)
  | int (n : ℤ)
deriving DecidableEq

/-- `XMGrace.PRECISION` (source line 121). -/
def PRECISION : ℕ := 8

/-- Round a fraction to the nearest integer, ties to even — the rounding used
by CPython's float-to-decimal conversion. -/
def roundHalfEven (q : Frac) : ℤ :=
  let n := fracFloor q
  let r : Frac := ⟨q.num - n * (q.den : ℤ), q.den⟩
  if fracLt r ⟨1, 2⟩ then n
  else if fracLt ⟨1, 2⟩ r then n + 1
  else if n % 2 = 0 then n else n + 1

/-- Decimal exponent search: for `0 < q` returns the `X` with
`10 ^ X ≤ q < 10 ^ (X + 1)` (given enough fuel). -/
def decExpGo : ℕ → Frac → ℤ
  | 0, _ => 0
  | fuel + 1, q =>
    if fracLt q (fracOfInt 1) then decExpGo fuel ⟨q.num * 10, q.den⟩ - 1
    else if fracLt q (fracOfInt 10) then 0
    else decExpGo fuel ⟨q.num, q.den * 10⟩ + 1

/-- Fuel that always suffices for `decExpGo`: one step per decimal digit of
numerator and denominator. -/
def decExpFuel (q : Frac) : ℕ :=
  (natStr q.num.natAbs).data.length + (natStr q.den).data.length + 2

/-- Decimal exponent of a positive fraction. -/
def decExp (q : Frac) : ℤ := decExpGo (decExpFuel q) q

/-- Strip trailing `'0'` characters. -/
def stripZeros (cs : List Char) : List Char := (cs.reverse.dropWhile (· = '0')).reverse

/-- Pad a decimal exponent to at least two digits (CPython's float notation). -/
def pad2 (s : String) : String := if s.data.length < 2 then "0" ++ s else s

/-- CPython `format(x, '.{prec}')` for a positive finite float `x` embedded as
the exact rational `q`: round to `prec` significant decimal digits (half to
even), then general notation — fixed form when the decimal exponent `X` is in
`[-4, prec)` with trailing zeros stripped (and `.0` appended when nothing
fractional survives, as the empty presentation type does), scientific form
`d[.ddd]e±XX` otherwise. -/
def pyFloatFmtPos (prec : ℕ) (q : Frac) : String :=
  let X := decExp q
  let scaled := fracMulPow10 q ((prec : ℤ) - 1 - X)
  let n0 := roundHalfEven scaled
  let n := if n0 = 10 ^ prec then ((10 : ℤ) ^ (prec - 1)) else n0
  let X := if n0 = 10 ^ prec then X + 1 else X
  let ds := (natStr n.toNat).data
  if -4 ≤ X ∧ X < (prec : ℤ) then
    if 0 ≤ X then
      let ip := ds.take (X.toNat + 1)
      let fp := stripZeros (ds.drop (X.toNat + 1))
      if fp = [] then String.mk ip ++ ".0"
      else String.mk ip ++ "." ++ String.mk fp
    else
      "0." ++ String.mk (List.replicate ((-X).toNat - 1) '0') ++ String.mk (stripZeros ds)
  else
    let fp := stripZeros ds.tail
    let mant := if fp = [] then String.mk (ds.take 1)
      else String.mk (ds.take 1) ++ "." ++ String.mk fp
    let esign := if X < 0 then "-" else "+"
    mant ++ "e" ++ esign ++ pad2 (natStr X.natAbs)

/-- CPython `format(x, '.{prec}')` for any finite embedded float.
(The sign of a negative zero is lost by the exact-fraction embedding.) -/
def pyFloatFmt (prec : ℕ) (q : Frac) : String :=
  if q.num = 0 then "0.0"
  else if q.num < 0 then "-" ++ pyFloatFmtPos prec ⟨-q.num, q.den⟩
  else pyFloatFmtPos prec q

/-- Exact value of a decimal/scientific numeral, exponent part. -/
def sciParseExp : List Char → Option ℤ
  | 'e' :: rest =>
    match rest with
    | '+' :: ds => (parseDigits ds).map (fun n => (n : ℤ))
    | '-' :: ds => (parseDigits ds).map (fun n => -(n : ℤ))
    | ds => (parseDigits ds).map (fun n => (n : ℤ))
  | _ => none

/-- Exact value of an unsigned decimal/scientific numeral
(`ddd[.ddd][e±dd]`), as Python `float()` would parse it (the value is kept
exact rather than rounded to a double). -/
def sciParseMag (cs : List Char) : Option Frac :=
  let ip := cs.takeWhile Char.isDigit
  let rest := cs.dropWhile Char.isDigit
  if ip.isEmpty then none
  else
    match rest with
    | [] => some (fracOfInt (digitsVal ip))
    | '.' :: rest2 =>
      let fp := rest2.takeWhile Char.isDigit
      let rest3 := rest2.dropWhile Char.isDigit
      let base : Frac :=
        ⟨(digitsVal ip : ℤ) * 10 ^ fp.length + (digitsVal fp : ℤ), 10 ^ fp.length⟩
      match rest3 with
      | [] => some base
      | r => (sciParseExp r).map (fun e => fracMulPow10 base e)
    | r => (sciParseExp r).map (fun e => fracMulPow10 (fracOfInt (digitsVal ip)) e)

/-- Python `float(s)` on the strings produced by `pyFloatFmt`, kept exact. -/
def sciParse (s : String) : Option Frac :=
  match s.data with
  | '-' :: cs => (sciParseMag cs).map (fun q => ⟨-q.num, q.den⟩)
  | cs => sciParseMag cs

/-- The float branch of `clean_entry` (source lines 216-219):
`datum = f"{datum:.{PRECISION}}"`, then if `float(datum) == int(float(datum))`
the decimal point is dropped via `str(int(float(datum)))` (the division is
exact there, so the rounding convention of `/` is immaterial). -/
def formatFloat (q : Frac) : String :=
  let s := pyFloatFmt PRECISION q
  match sciParse s with
  | some v => if fracIsInt v then intStr (v.num / (v.den : ℤ)) else s
  | none => s

/-! ## `clean_entry` (source lines 208-232) -/

/-- Lower-cased characters of a string (Python `str.lower`, ASCII scope). -/
def lowerChars (s : String) : List Char := s.data.map Char.toLower

/-- Substring search (Python `in`). -/
def containsSeq (pat : List Char) (cs : List Char) : Bool := anyTail (chStarts pat) cs

/-- The skip test of source line 212:
`'inf' in str(datum).lower() or 'nan' in str(datum).lower()`.
`str` of a finite float or of an int consists only of digits, `.`, `e`, `+`,
`-`, so it never contains `inf`/`nan`; for the special floats `str` gives
`inf`, `-inf` or `nan`; for a string the search runs over its own text. -/
def pyHasInfNanText : PyVal → Bool
  | .float (.finite _) => false
  | .float _ => true
  | .int _ => false
  | .str s =>
    containsSeq ['i', 'n', 'f'] (lowerChars s) || containsSeq ['n', 'a', 'n'] (lowerChars s)

/-- An element of the `reformatted_entry` list: the float and str branches
store strings, ints pass through unchanged. -/
inductive RVal
  | rstr (s : String)
  | rint (n : ℤ)
deriving DecidableEq

/-- Escapes applied by Python `repr` inside a quoted string, other than the
quote character itself (other control-character escapes are not modelled). -/
def escNonQuote (c : Char) : String :=
  if c = '\\' then "\\\\"
  else if c = '\n' then "\\n"
  else if c = '\r' then "\\r"
  else if c = '\t' then "\\t"
  else String.mk [c]

/-- Python `repr` of a string: single quotes, unless the text contains a
single quote and no double quote. -/
def pyReprStr (s : String) : String :=
  if s.data.contains '\'' && !(s.data.contains '"') then
    "\"" ++ String.join (s.data.map escNonQuote) ++ "\""
  else
    "'" ++ String.join (s.data.map (fun c => if c = '\'' then "\\'" else escNonQuote c)) ++ "'"

/-- Python `repr` of a list element. -/
def reprRVal : RVal → String
  | .rstr s => pyReprStr s
  | .rint n => intStr n

/-- Comma-space separated join (Python list `repr` separator). -/
def joinCommaSp : List String → String
  | [] => ""
  | [x] => x
  | x :: xs => x ++ ", " ++ joinCommaSp xs

/-- Python `str` of the reformatted list. -/
def pyListRepr (xs : List RVal) : String := "[" ++ joinCommaSp (xs.map reprRVal) ++ "]"

/-- `remove_chars` (source lines 40-41) with its default removal set
`",()[]'"`. -/
def remove_chars (s : String) : String :=
  String.mk (s.data.filter
    (fun c => !(c = ',' || c = '(' || c = ')' || c = '[' || c = ']' || c = '\'')))

/-- The loop of `XMGrace.clean_entry`: scan the tuple, skip the whole tuple
(empty result) at the first component whose text contains `inf`/`nan`,
format floats, double-quote strings, pass ints through; finally
`remove_chars(str(reformatted_entry)) + '\n'`.  For the embedded value types
the `try` body raises no exception, so the `except` arms (modelled separately
by `clean_entry_exc`) are not reachable here. -/
def clean_entry_go : List PyVal → List RVal → String
  | [], acc => remove_chars (pyListRepr acc.reverse) ++ "\n"
  | d :: ds, acc =>
    if pyHasInfNanText d then ""
    else
      match d with
      | .float (.finite q) => clean_entry_go ds (.rstr (formatFloat q) :: acc)
      | .float _ => ""
      | .str s => clean_entry_go ds (.rstr ("\"" ++ s ++ "\"") :: acc)
      | .int n => clean_entry_go ds (.rint n :: acc)

/-- `XMGrace.clean_entry` (source lines 208-232). -/
def clean_entry (e : List PyVal) : String := clean_entry_go e []

/-! ## The `except` arms of `clean_entry` (source lines 223-231)

What the handlers do when the conversion of one component raises, as a
function of the exception kind and its message. -/

inductive ExcKind
  | valueError
  | overflowError
deriving DecidableEq

inductive ExcOutcome
  /-- print a skip message and `return ''` -/
  | skipTuple
  /-- `raise ValueError(e, entry)`: re-raised with the tuple as context -/
  | reraiseWithEntry
  /-- the handler body ends without raising: the offending component is
  silently omitted and the loop continues -/
  | dropValue
deriving DecidableEq

/-- Exception dispatch of `clean_entry` (source lines 223-231): a `ValueError`
is skipped on the exact NaN message and re-raised with the entry otherwise; an
`OverflowError` is skipped on the (never-matching, `'OverflowError: '`-prefixed)
infinity message and otherwise falls through the handler, dropping the value. -/
def clean_entry_exc : ExcKind → String → ExcOutcome
  | .valueError, msg =>
    if msg = "cannot convert float NaN to integer" then .skipTuple else .reraiseWithEntry
  | .overflowError, msg =>
    if msg = "OverflowError: cannot convert float infinity to integer" then .skipTuple
    else .dropValue

/-! ## Data model (`Set`, `Group`, source lines 234-266) -/

/-- `Set` (source lines 234-247).  The `index` constructor argument of the
Python class is never stored; label, datatype and entries are. -/
structure Set where
  label : String
  datatype : String
  entries : List (List PyVal)
deriving DecidableEq

/-- `Set.as_list` (source lines 243-247): the `@type` tag line followed by one
`clean_entry` result per entry (a skipped entry contributes the empty string,
which disappears when the line buffer is joined and written). -/
def Set.as_list (s : Set) : List String :=
  ("@type " ++ s.datatype ++ "\n") :: s.entries.map clean_entry

/-- `Group` (source lines 249-266). -/
structure Group where
  index : ℕ
  label : String
  sets : List Set
deriving DecidableEq

/-- The `@target G<g>.S<s>` data-block start marker. -/
def targetLine (gi si : ℕ) : String := "@target G" ++ natStr gi ++ ".S" ++ natStr si ++ "\n"

/-- `Group.as_list` (source lines 260-266): per set, the target marker, the
set's lines, and the `&` end marker. -/
def Group.as_list (g : Group) : List String :=
  (g.sets.enum.map (fun p => targetLine g.index p.1 :: (p.2.as_list ++ ["&\n"]))).flatten

/-! ## Graph construction (source lines 268-311) -/

/-- One `(set label, datatype, tuples)` triple of the caller-supplied
`datasets` argument (a `None` label becomes `''`). -/
structure RawSet where
  label : Option String
  datatype : String
  entries : List (List PyVal)
deriving DecidableEq

/-- One `(group label, sets)` pair of the `datasets` argument. -/
structure RawGroup where
  label : Option String
  sets : List RawSet
deriving DecidableEq

/-- `get_longest_string_length` (source lines 35-38). -/
def get_longest_string_length (strings : List String) : ℕ :=
  (strings.map (fun s => s.data.length)).foldr max 0

/-- Python `str.expandtabs()` with the default tab size 8: each tab becomes
the spaces needed to reach the next multiple-of-8 column, the column resetting
at newlines and carriage returns. -/
def expandtabsGo : List Char → ℕ → List Char
  | [], _ => []
  | c :: cs, col =>
    if c = '\t' then
      let pad := 8 - col % 8
      List.replicate pad ' ' ++ expandtabsGo cs (col + pad)
    else if c = '\n' || c = '\r' then c :: expandtabsGo cs 0
    else c :: expandtabsGo cs (col + 1)

/-- Python `str.expandtabs()`. -/
def expandtabs (s : String) : String := ⟨expandtabsGo s.data 0⟩

/-- Python `str.split('\n')` (accumulator form). -/
def splitNlGo : List Char → List Char → List String
  | [], acc => [⟨acc.reverse⟩]
  | c :: cs, acc =>
    if c = '\n' then (⟨acc.reverse⟩ : String) :: splitNlGo cs []
    else splitNlGo cs (c :: acc)

/-- Left-justified padding to width `n` (Python `f'{l:{n}}'`). -/
def padTo (s : String) (n : ℕ) : String := s ++ ⟨List.replicate (n - s.data.length) ' '⟩

/-- The timestamp line `@description "Last Updated: <ts>"` (source line 290);
the `time.strftime` text is a parameter of the embedding. -/
def tsDescLine (ts : String) : String := "@description \"Last Updated: " ++ ts ++ "\"\n"

/-- `self.description` (source lines 286-294): the timestamp line, a boxed
divider, the non-empty description lines padded to the longest width, and the
closing divider. -/
def mkDescription (ts description : String) : List String :=
  let lines := splitNlGo (expandtabs description).data []
  let length := get_longest_string_length lines
  let divider := "\"" ++ (⟨List.replicate length '='⟩ : String) ++ "\"\n"
  tsDescLine ts ::
    ("@description " ++ divider) ::
    ((lines.filter (fun l => l.data ≠ [])).map
        (fun l => "@description \"" ++ padTo l length ++ "\"\n")
      ++ ["@description " ++ divider])

/-- The `@    subtitle "<label>"` line (source line 301). -/
def subtitleLine (label : String) : String := "@    subtitle \"" ++ label ++ "\"\n"

/-- The `@    s<i> legend  "<label>"` line (source line 307). -/
def legendLine (si : ℕ) (label : String) : String :=
  "@    s" ++ natStr si ++ " legend  \"" ++ label ++ "\"\n"

/-- The `@with g<i>` group-start line (source line 371). -/
def withGLine (gi : ℕ) : String := "@with g" ++ natStr gi ++ "\n"

/-- The state built by `Graph.__init__`: the description block and the
position-indexed `subtitle`, `legend` and `data` members (the Python dicts are
keyed by the exact ranges `0..n-1` in insertion order, so lists model them
faithfully). -/
structure Graph where
  description : List String
  subtitle : List String
  legend : List (List String)
  data : List Group
deriving DecidableEq

/-- `Graph.__init__` (source lines 286-311) up to the final `create_file`
call: build description, subtitle and legend lines, and the `Group`/`Set`
objects, with indices assigned by position. -/
def mkGraph (ts description : String) (datasets : List RawGroup) : Graph where
  description := mkDescription ts description
  subtitle := datasets.map (fun rg => subtitleLine (rg.label.getD ""))
  legend := datasets.map
    (fun rg => rg.sets.enum.map (fun p => legendLine p.1 (p.2.label.getD "")))
  data := datasets.enum.map (fun p =>
    { index := p.1
      label := p.2.label.getD ""
      sets := p.2.sets.map
        (fun rs => ⟨rs.label.getD "", rs.datatype, rs.entries⟩) })

/-! ## The merge engine (`Graph.create_file`, source lines 326-375) -/

/-- The legend regex `r'\@    s\d legend  \"'` matched at the head of the
character list. -/
def legendPatAt : List Char → Bool
  | '@' :: ' ' :: ' ' :: ' ' :: ' ' :: 's' :: c :: rest =>
    c.isDigit && chStarts " legend  \"".data rest
  | _ => false

/-- `re.search(r'\@    s\d legend  \"', line)` (source line 340). -/
def hasLegendPat (s : String) : Bool := anyTail legendPatAt s.data

/-- Python `line.replace('@with g', '')`: delete every (left-to-right,
non-overlapping) occurrence of `@with g`. -/
def removeWithG : List Char → List Char
  | '@' :: 'w' :: 'i' :: 't' :: 'h' :: ' ' :: 'g' :: rest => removeWithG rest
  | c :: cs => c :: removeWithG cs
  | [] => []

/-- How `create_file` can abort: the legend-before-group assertion (source
line 341), or `int()` failing on a `@with g` line (source line 337). -/
inductive MergeErr
  | assertNoGroup
  | badWithG (line : String)
deriving DecidableEq

/-- Source lines 336-337: on a `@with g` line the current-group cursor is
re-parsed (an unparsable remainder raises), otherwise it is kept. -/
def lineGroup (group : Option ℤ) (line : String) : Except MergeErr (Option ℤ) :=
  if strStarts "@with g" line then
    match parseIntPy ⟨removeWithG line.data⟩ with
    | none => .error (.badWithG line)
    | some k => .ok (some k)
  else .ok group

/-- `group in self.subtitle` (`None` is never a key). -/
def Graph.subtitleKey (gr : Graph) : Option ℤ → Bool
  | none => false
  | some k => decide (0 ≤ k) && decide (k.toNat < gr.subtitle.length)

/-- `self.subtitle[group]`. -/
def Graph.subtitleAt (gr : Graph) : Option ℤ → String
  | none => ""
  | some k => gr.subtitle.getD k.toNat ""

/-- `group in self.legend and s in self.legend[group]`. -/
def Graph.legendKey (gr : Graph) (k : ℤ) (s : ℕ) : Bool :=
  decide (0 ≤ k) && decide (k.toNat < gr.legend.length)
    && decide (s < (gr.legend.getD k.toNat []).length)

/-- `self.legend[group][s]`. -/
def Graph.legendAt (gr : Graph) (k : ℤ) (s : ℕ) : String :=
  (gr.legend.getD k.toNat []).getD s ""

/-- `sum((g.as_list() for g in self.data), [])` (source lines 355 and 375). -/
def Graph.dataLines (gr : Graph) : List String := (gr.data.map Group.as_list).flatten

/-- The label block appended by the `for ... else` arm (source lines 370-374):
per group, its `@with g<i>` line, its subtitle line, and its legend lines. -/
def Graph.labelBootstrap (gr : Graph) : List String :=
  (gr.subtitle.enum.map (fun p => withGLine p.1 :: p.2 :: gr.legend.getD p.1 [])).flatten

/-- The scan loop of `Graph.create_file` (source lines 334-375): track the
current group from `@with g` lines; replace or drop legend lines (asserting a
group was seen); replace or drop subtitle lines; on the first `@target G` line
emit the whole new data section and stop; drop `@description` lines; copy
everything else, appending the fresh description block right after a
`@page size ` line; if no data section was found, append label blocks and the
data section. -/
def mergeLines (gr : Graph) : Option ℤ → List String → Except MergeErr (List String)
  | _, [] => .ok (gr.labelBootstrap ++ gr.dataLines)
  | group, line :: rest =>
    match lineGroup group line with
    | .error e => .error e
    | .ok g =>
      if hasLegendPat line then
        match g with
        | none => .error .assertNoGroup
        | some k =>
          if gr.legendKey k (firstDigitRunS line) then
            (mergeLines gr g rest).map (fun out => gr.legendAt k (firstDigitRunS line) :: out)
          else mergeLines gr g rest
      else if strStarts "@    subtitle \"" line then
        if gr.subtitleKey g then
          (mergeLines gr g rest).map (fun out => gr.subtitleAt g :: out)
        else mergeLines gr g rest
      else if strStarts "@target G" line then .ok gr.dataLines
      else if strStarts "@description" line then mergeLines gr g rest
      else
        (mergeLines gr g rest).map (fun out =>
          line ::
            ((if !gr.description.isEmpty && strStarts "@page size " line
              then gr.description else []) ++ out))

/-- `Graph.create_file`, the pure line transformation (source lines 326-378):
the scan starts with no current group; reading, writing and template copying
are the I/O around this function. -/
def create_file (gr : Graph) (original : List String) : Except MergeErr (List String) :=
  mergeLines gr none original

/-! ## Diff reporting (`get_file_differences`, source lines 84-92) -/

/-- The timestamp-line filter of `get_file_differences` (source lines 86-91). -/
def isTsLine (l : String) : Bool :=
  strStarts "@timestamp def \"" l || strStarts "@description \"Last Updated: " l

/-- The line sequences compared by `get_file_differences`. -/
def filterTs (v : List String) : List String := v.filter (fun l => !isTsLine l)

/-- Modelled from the spec: `difflib.context_diff` is Python standard library,
external to this repository; per the spec's Diff Reporter contract it reports
no lines exactly when the two sequences are equal. -/
def context_diff (a b : List String) : List String :=
  if a = b then [] else ["*** ", "--- "]

/-- `get_file_differences` (source lines 84-92). -/
def get_file_differences (v1 v2 : List String) : List String :=
  context_diff (filterTs v1) (filterTs v2)

/-- A passthrough line: one matching none of the five recognized directive
patterns of the merge loop (group start, legend, subtitle, data-section start,
description). -/
def isPassthrough (l : String) : Bool :=
  !(strStarts "@with g" l || hasLegendPat l || strStarts "@    subtitle \"" l
    || strStarts "@target G" l || strStarts "@description" l)

/-- The regenerated tail the merge emits after the preserved part: the new
data section alone when the original file has a data-section start marker, the
bootstrap label blocks followed by the data section otherwise. -/
def emittedTail (gr : Graph) (lines : List String) : List String :=
  if lines.any (fun l => strStarts "@target G" l) then gr.dataLines
  else gr.labelBootstrap ++ gr.dataLines

/-! ## The file round trip between runs (source lines 333 and 378) -/

/-- The bytes written back to the target file: source line 378 joins the line
buffer over the empty string, concatenating it with no separators. -/
def joinLines (v : List String) : String := ⟨(v.map String.data).flatten⟩

/-- Worker for `readlines`: split after every newline, keeping the newline on
each chunk; a final unterminated chunk is kept, an empty remainder adds
nothing. -/
def readlinesGo : List Char → List Char → List String
  | [], acc => if acc.isEmpty then [] else [⟨acc.reverse⟩]
  | c :: cs, acc =>
    if c = '\n' then (⟨(c :: acc).reverse⟩ : String) :: readlinesGo cs []
    else readlinesGo cs (c :: acc)

/-- Python `f.readlines()` (source line 333): the file's text re-split into
newline-terminated lines. The next run's input is `readlines (joinLines out)`,
which differs from `out` when an element is empty or holds an interior
newline. -/
def readlines (s : String) : List String := readlinesGo s.data []

/-- A string that round-trips through the file as one line: nonempty, ending
in a newline, with no interior newline. -/
def oneLineChars : List Char → Bool
  | [] => false
  | [c] => decide (c = '\n')
  | c :: cs => !(decide (c = '\n')) && oneLineChars cs

/-- `oneLineChars` on a string's characters. -/
def isOneLine (l : String) : Bool := oneLineChars l.data

/-! # Lemmas and claim theorems -/

/-! ## Decimal toolkit lemmas -/

theorem natStrGo_eq (fuel₁ fuel₂ n : ℕ) (acc : List Char)
    (h₁ : n < fuel₁) (h₂ : n < fuel₂) :
    natStrGo fuel₁ n acc = natStrGo fuel₂ n acc := by
  induction fuel₁ generalizing fuel₂ n acc with
  | zero => omega
  | succ f ih =>
    cases fuel₂ with
    | zero => omega
    | succ f₂ =>
      simp only [natStrGo]
      by_cases h : n < 10
      · simp [h]
      · simp only [h, if_false]
        exact ih f₂ (n / 10) _ (by omega) (by omega)

theorem natStrGo_acc (fuel n : ℕ) (acc : List Char) (h : n < fuel) :
    natStrGo fuel n acc = natStrGo fuel n [] ++ acc := by
  induction fuel generalizing n acc with
  | zero => omega
  | succ f ih =>
    simp only [natStrGo]
    by_cases h10 : n < 10
    · simp [h10]
    · simp only [h10, if_false]
      by_cases hf : n / 10 < f
      · rw [ih (n / 10) _ hf, ih (n / 10) [digitCh (n % 10)] hf]
        simp
      · omega

theorem natStr_data (n : ℕ) (h : 10 ≤ n) :
    (natStr n).data = (natStr (n / 10)).data ++ [digitCh (n % 10)] := by
  show natStrGo (n + 1) n [] = natStrGo (n / 10 + 1) (n / 10) [] ++ [digitCh (n % 10)]
  have h1 : ¬ n < 10 := by omega
  conv_lhs => simp only [natStrGo, h1, if_false]
  rw [natStrGo_acc n (n / 10) [digitCh (n % 10)] (by omega)]
  rw [natStrGo_eq n (n / 10 + 1) (n / 10) [] (by omega) (by omega)]

theorem natStr_data_lt (n : ℕ) (h : n < 10) : (natStr n).data = [digitCh n] := by
  show natStrGo (n + 1) n [] = [digitCh n]
  cases n with
  | zero => rfl
  | succ m => simp [natStrGo, h]

theorem digitCh_isDigit (d : ℕ) (h : d < 10) : (digitCh d).isDigit = true := by
  interval_cases d <;> decide

theorem natStr_all_digits (n : ℕ) : ∀ c ∈ (natStr n).data, c.isDigit = true := by
  induction n using Nat.strong_induction_on with
  | _ n ih =>
    by_cases h : n < 10
    · rw [natStr_data_lt n h]
      intro c hc
      simp only [List.mem_singleton] at hc
      subst hc
      exact digitCh_isDigit n h
    · rw [natStr_data n (by omega)]
      intro c hc
      rcases List.mem_append.mp hc with h1 | h1
      · exact ih (n / 10) (by omega) c h1
      · simp only [List.mem_singleton] at h1
        subst h1
        exact digitCh_isDigit (n % 10) (Nat.mod_lt n (by omega))

theorem natStr_ne_nil (n : ℕ) : (natStr n).data ≠ [] := by
  by_cases h : n < 10
  · rw [natStr_data_lt n h]; simp
  · rw [natStr_data n (by omega)]; simp

theorem digitsVal_go (b : List Char) (x : ℕ) :
    List.foldl (fun a c => a * 10 + (c.toNat - 48)) x b
      = x * 10 ^ b.length + digitsVal b := by
  induction b generalizing x with
  | nil => simp [digitsVal]
  | cons c bs ih =>
    have hv : digitsVal (c :: bs) = (c.toNat - 48) * 10 ^ bs.length + digitsVal bs := by
      simp only [digitsVal, List.foldl_cons]
      rw [show (0 : ℕ) * 10 + (c.toNat - 48) = c.toNat - 48 by ring, ih]
      rfl
    simp only [List.foldl_cons, List.length_cons]
    rw [ih, hv]
    ring

theorem digitsVal_append (a b : List Char) :
    digitsVal (a ++ b) = digitsVal a * 10 ^ b.length + digitsVal b := by
  show List.foldl _ 0 (a ++ b) = _
  rw [List.foldl_append]
  exact digitsVal_go b _

theorem digitsVal_digitCh (d : ℕ) (h : d < 10) : digitsVal [digitCh d] = d := by
  interval_cases d <;> decide

theorem digitsVal_natStr (n : ℕ) : digitsVal (natStr n).data = n := by
  induction n using Nat.strong_induction_on with
  | _ n ih =>
    by_cases h : n < 10
    · rw [natStr_data_lt n h]
      exact digitsVal_digitCh n h
    · rw [natStr_data n (by omega)]
      rw [digitsVal_append, ih (n / 10) (by omega),
        digitsVal_digitCh (n % 10) (Nat.mod_lt n (by omega))]
      simp only [List.length_singleton, pow_one]
      omega


theorem clean_entry_sanity1 : clean_entry [.float (.finite ⟨1, 10⟩)] = "0.1\n" := by decide

theorem clean_entry_sanity2 : clean_entry [.float (.finite ⟨2, 1⟩)] = "2\n" := by decide

theorem clean_entry_sanity3 :
    clean_entry [.float (.finite ⟨1, 10⟩), .float (.finite ⟨-1, 10⟩)] = "0.1 -0.1\n" := by
  decide

theorem clean_entry_sanity4 : clean_entry [.float .nan, .float (.finite ⟨2, 1⟩)] = "" := by decide

theorem clean_entry_sanity5 :
    clean_entry [.str "information", .float (.finite ⟨2, 1⟩)] = "" := by decide

theorem clean_entry_sanity6 : clean_entry [.str "ab", .int 5] = "\"ab\" 5\n" := by decide

/-! ## `clean_entry` lemmas -/

theorem clean_entry_go_skip (e : List PyVal) (acc : List RVal) (v : PyVal)
    (hv : v ∈ e) (h : pyHasInfNanText v = true) : clean_entry_go e acc = "" := by
  induction e generalizing acc with
  | nil => cases hv
  | cons d ds ih =>
    rcases List.mem_cons.mp hv with rfl | hv'
    · simp [clean_entry_go, h]
    · by_cases hd : pyHasInfNanText d = true
      · simp [clean_entry_go, hd]
      · simp only [clean_entry_go, hd, if_false, Bool.false_eq_true]
        cases d with
        | float f => cases f with
          | finite q => exact ih _ hv'
          | inf b => rfl
          | nan => rfl
        | str s => exact ih _ hv'
        | int n => exact ih _ hv'

theorem clean_entry_skip (e : List PyVal) (v : PyVal)
    (hv : v ∈ e) (h : pyHasInfNanText v = true) : clean_entry e = "" :=
  clean_entry_go_skip e [] v hv h

theorem clean_entry_go_ne_empty (e : List PyVal) (acc : List RVal)
    (h : e.all (fun v => !pyHasInfNanText v) = true) : clean_entry_go e acc ≠ "" := by
  induction e generalizing acc with
  | nil =>
    intro hc
    rw [show clean_entry_go [] acc = remove_chars (pyListRepr acc.reverse) ++ "\n" from rfl] at hc
    have hd := congrArg String.data hc
    rw [String.data_append] at hd
    simp at hd
  | cons d ds ih =>
    simp only [List.all_cons, Bool.and_eq_true, Bool.not_eq_eq_eq_not, Bool.not_true] at h
    obtain ⟨hd, hds⟩ := h
    simp only [clean_entry_go, hd, if_false, Bool.false_eq_true]
    cases d with
    | float f => cases f with
      | finite q => exact ih _ (by simpa using hds)
      | inf b => simp [pyHasInfNanText] at hd
      | nan => simp [pyHasInfNanText] at hd
    | str s => exact ih _ (by simpa using hds)
    | int n => exact ih _ (by simpa using hds)

theorem clean_entry_ne_empty (e : List PyVal)
    (h : e.all (fun v => !pyHasInfNanText v) = true) : clean_entry e ≠ "" :=
  clean_entry_go_ne_empty e [] h

/-- Lines emitted for the entries of one set, and their count: one line per
entry surviving the `inf`/`nan` text screen. -/
theorem tuple_lines_count (entries : List (List PyVal)) :
    ((entries.map clean_entry).filter (fun l => l ≠ "")).length
      = entries.countP (fun e => e.all (fun v => !pyHasInfNanText v)) := by
  induction entries with
  | nil => rfl
  | cons e es ih =>
    by_cases he : e.all (fun v => !pyHasInfNanText v) = true
    · have hne : clean_entry e ≠ "" := clean_entry_ne_empty e he
      simp only [List.map_cons, List.filter_cons, List.countP_cons, he, if_true]
      simp only [ne_eq, decide_not] at ih ⊢
      simp [hne, ih]
    · have hex : ∃ v ∈ e, pyHasInfNanText v = true := by
        rcases List.all_eq_false.mp (Bool.eq_false_iff.mpr he) with ⟨v, hv, hb⟩
        exact ⟨v, hv, by simpa using hb⟩
      obtain ⟨v, hv, hb⟩ := hex
      have h0 : clean_entry e = "" := clean_entry_skip e v hv hb
      simp only [List.map_cons, List.filter_cons, List.countP_cons, h0, he]
      simp only [ne_eq, decide_not] at ih ⊢
      simp [ih]

/-! ## C5 — non-finite numeric tuples are skipped, run continues -/

/-- C5: a tuple containing a NaN or ±infinity float yields the empty string
(no output line) from `clean_entry`, without raising; the surrounding
`Set.as_list` still processes every other tuple of the set.  (The skip message
is a print side effect outside the embedding.) -/
theorem c5_nonfinite_skip (e : List PyVal) (v : PyVal)
    (hv : v ∈ e)
    (h : v = PyVal.float .nan ∨ v = PyVal.float (.inf true) ∨ v = PyVal.float (.inf false)) :
    clean_entry e = "" ∧
    ∀ (lbl dt : String) (pre post : List (List PyVal)),
      (Set.mk lbl dt (pre ++ e :: post)).as_list
        = ("@type " ++ dt ++ "\n") :: (pre.map clean_entry ++ "" :: post.map clean_entry) := by
  have hskip : clean_entry e = "" := by
    apply clean_entry_skip e v hv
    rcases h with rfl | rfl | rfl <;> rfl
  refine ⟨hskip, fun lbl dt pre post => ?_⟩
  simp [Set.as_list, hskip]

theorem c5_witness :
    clean_entry [PyVal.float .nan, PyVal.float (.finite ⟨2, 1⟩)] = "" ∧
    (Set.mk "s" "xy"
        ([[PyVal.float (.finite ⟨1, 10⟩)]] ++
          [PyVal.float .nan, PyVal.float (.finite ⟨2, 1⟩)] :: [[PyVal.int 7]])).as_list
      = ("@type " ++ "xy" ++ "\n") ::
          ([[PyVal.float (.finite ⟨1, 10⟩)]].map clean_entry ++
            "" :: [[PyVal.int 7]].map clean_entry) := by
  have h := c5_nonfinite_skip [PyVal.float .nan, PyVal.float (.finite ⟨2, 1⟩)]
    (PyVal.float .nan) (by decide) (Or.inl rfl)
  exact ⟨h.1, h.2 "s" "xy" [[PyVal.float (.finite ⟨1, 10⟩)]] [[PyVal.int 7]]⟩

/-! ## C10 — substring-based non-finite detection also skips finite text -/

/-- C10: a tuple containing a string component whose lower-cased text contains
`inf` or `nan` is skipped entirely (empty output), because the screen is a
substring search on the textual form, not a numeric check. -/
theorem c10_substring_skip (e : List PyVal) (s : String)
    (hv : PyVal.str s ∈ e)
    (h : (containsSeq ['i', 'n', 'f'] (lowerChars s)
          || containsSeq ['n', 'a', 'n'] (lowerChars s)) = true) :
    clean_entry e = "" :=
  clean_entry_skip e (PyVal.str s) hv (by simpa [pyHasInfNanText] using h)

theorem c10_witness :
    clean_entry [PyVal.str "information", PyVal.float (.finite ⟨2, 1⟩)] = "" :=
  c10_substring_skip [PyVal.str "information", PyVal.float (.finite ⟨2, 1⟩)]
    "information" (by decide) (by decide)

/-! ## C9 — exception dispatch of `clean_entry` -/

/-- C9 as written is false on the code: an `OverflowError` whose message is
not the recognized infinity pattern is *not* re-raised — the handler body ends
and the offending value is silently dropped.  (The real CPython message
`cannot convert float infinity to integer` itself differs from the recognized
pattern, which carries a spurious `OverflowError: ` prefix.) -/
theorem c9_counterexample :
    clean_entry_exc .overflowError "cannot convert float infinity to integer"
      ≠ ExcOutcome.reraiseWithEntry := by decide

/-- C9 amended: a `ValueError` with an unrecognized message is re-raised
carrying the offending tuple; an `OverflowError` with an unrecognized message
is swallowed — the value is omitted and the loop continues. -/
theorem c9_amended (msgv msgo : String)
    (hv : msgv ≠ "cannot convert float NaN to integer")
    (ho : msgo ≠ "OverflowError: cannot convert float infinity to integer") :
    clean_entry_exc .valueError msgv = ExcOutcome.reraiseWithEntry ∧
    clean_entry_exc .overflowError msgo = ExcOutcome.dropValue := by
  constructor
  · rw [show clean_entry_exc .valueError msgv
        = (if msgv = "cannot convert float NaN to integer" then ExcOutcome.skipTuple
           else ExcOutcome.reraiseWithEntry) from rfl, if_neg hv]
  · rw [show clean_entry_exc .overflowError msgo
        = (if msgo = "OverflowError: cannot convert float infinity to integer"
           then ExcOutcome.skipTuple else ExcOutcome.dropValue) from rfl, if_neg ho]

theorem c9_witness :
    clean_entry_exc .valueError "could not convert string to float" = ExcOutcome.reraiseWithEntry ∧
    clean_entry_exc .overflowError "cannot convert float infinity to integer"
      = ExcOutcome.dropValue :=
  c9_amended "could not convert string to float" "cannot convert float infinity to integer"
    (by decide) (by decide)

/-! ## C6 — numeric rendering -/

theorem intStr_no_dot (k : ℤ) : '.' ∉ (intStr k).data := by
  intro hmem
  unfold intStr at hmem
  by_cases hk : k < 0
  · simp only [hk, if_true, String.data_append] at hmem
    rcases List.mem_append.mp hmem with h1 | h1
    · exact absurd h1 (by decide)
    · have := natStr_all_digits k.natAbs '.' h1
      simp [Char.isDigit] at this
  · simp only [hk, if_false] at hmem
    have := natStr_all_digits k.natAbs '.' hmem
    simp [Char.isDigit] at this

/-- C6: `clean_entry` renders the float `0.1` (8 significant digits) as `0.1`
and the float `2.0` as `2`; in general, whenever the rendered text parses back
to a mathematical integer, the float branch emits the plain decimal integer
(`str(int(float(...)))`), which contains no decimal point or trailing zero. -/
theorem c6_numeric_rendering :
    clean_entry [PyVal.float (.finite ⟨1, 10⟩)] = "0.1\n" ∧
    clean_entry [PyVal.float (.finite ⟨2, 1⟩)] = "2\n" ∧
    ∀ (q v : Frac), sciParse (pyFloatFmt PRECISION q) = some v → fracIsInt v = true →
      formatFloat q = intStr (v.num / (v.den : ℤ)) ∧ '.' ∉ (formatFloat q).data := by
  refine ⟨by decide, by decide, fun q v hp hi => ?_⟩
  have hdef : formatFloat q
      = (match sciParse (pyFloatFmt PRECISION q) with
         | some w => if fracIsInt w then intStr (w.num / (w.den : ℤ)) else pyFloatFmt PRECISION q
         | none => pyFloatFmt PRECISION q) := rfl
  have hform : formatFloat q = intStr (v.num / (v.den : ℤ)) := by
    rw [hdef, hp]
    show (if fracIsInt v = true then intStr (v.num / (v.den : ℤ))
          else pyFloatFmt PRECISION q) = _
    rw [if_pos hi]
  exact ⟨hform, by rw [hform]; exact intStr_no_dot _⟩

theorem c6_witness :
    formatFloat ⟨2, 1⟩ = intStr ((20 : ℤ) / (10 : ℤ)) ∧ '.' ∉ (formatFloat ⟨2, 1⟩).data :=
  c6_numeric_rendering.2.2 ⟨2, 1⟩ ⟨20, 10⟩ (by decide) (by decide)

/-! ## C4 — data-section structure and tuple-line counts -/

theorem append_ne_empty (a b : String) (h : a.data ≠ []) : a ++ b ≠ "" := by
  intro hc
  have hd := congrArg String.data hc
  rw [String.data_append] at hd
  exact h (List.append_eq_nil.mp hd).1

theorem strAppend_assoc (a b c : String) : a ++ b ++ c = a ++ (b ++ c) := by
  cases a with | mk la =>
  cases b with | mk lb =>
  cases c with | mk lc =>
  show String.mk (la ++ lb ++ lc) = String.mk (la ++ (lb ++ lc))
  rw [List.append_assoc]

theorem targetLine_ne_empty (gi si : ℕ) : targetLine gi si ≠ "" := by
  have h : targetLine gi si = "@target G" ++ (natStr gi ++ (".S" ++ (natStr si ++ "\n"))) := by
    unfold targetLine
    rw [strAppend_assoc, strAppend_assoc, strAppend_assoc]
  rw [h]
  exact append_ne_empty _ _ (by decide)

theorem typeLine_ne_empty (dt : String) : "@type " ++ dt ++ "\n" ≠ "" := by
  rw [strAppend_assoc]
  exact append_ne_empty _ _ (by decide)

/-- C4 as written is false on the code: a tuple whose components are all
finite (no NaN, no ±infinity) can still contribute no line, because the skip
screen is textual — here the single supplied tuple `('information',)` has no
non-finite component, yet the set's tuple-line count is `0`, not `1`. -/
theorem c4_counterexample :
    (∀ e ∈ [[PyVal.str "information"]], ∀ v ∈ e,
        v ≠ PyVal.float .nan ∧ v ≠ PyVal.float (.inf true) ∧ v ≠ PyVal.float (.inf false)) ∧
    [[PyVal.str "information"]].length = 1 ∧
    (((Set.mk "s" "xy" [[PyVal.str "information"]]).entries.map clean_entry).filter
        (fun l => l ≠ "")).length = 0 := by
  refine ⟨by decide, rfl, by decide⟩

/-- C4 amended: the written data section is exactly one block per
(Group, Set), in model order — the `@target G<g>.S<s>` marker, the `@type`
line, the surviving tuple lines, and the `&` end marker — and each block's
tuple-line count equals the number of tuples that pass the textual
`inf`/`nan` screen (not the number of tuples with all components finite). -/
theorem c4_data_section (gr : Graph) :
    gr.dataLines.filter (fun l => l ≠ "")
      = (gr.data.map (fun g =>
          (g.sets.enum.map (fun p =>
            targetLine g.index p.1 :: ("@type " ++ p.2.datatype ++ "\n") ::
              ((p.2.entries.map clean_entry).filter (fun l => l ≠ "") ++ ["&\n"]))).flatten)).flatten
    ∧ ∀ s : Set, ((s.entries.map clean_entry).filter (fun l => l ≠ "")).length
        = s.entries.countP (fun e => e.all (fun v => !pyHasInfNanText v)) := by
  constructor
  · show (Graph.dataLines gr).filter _ = _
    unfold Graph.dataLines
    rw [List.filter_flatten, List.map_map]
    congr 1
    apply List.map_congr_left
    intro g _
    show (Group.as_list g).filter _ = _
    unfold Group.as_list
    rw [List.filter_flatten, List.map_map]
    congr 1
    apply List.map_congr_left
    intro p _
    show List.filter _ (targetLine g.index p.1 :: (Set.as_list p.2 ++ ["&\n"])) = _
    unfold Set.as_list
    rw [List.filter_cons_of_pos (by simp [targetLine_ne_empty])]
    rw [show ("@type " ++ p.2.datatype ++ "\n") :: p.2.entries.map clean_entry ++ ["&\n"]
        = ("@type " ++ p.2.datatype ++ "\n") :: (p.2.entries.map clean_entry ++ ["&\n"]) by simp]
    rw [List.filter_cons_of_pos (by simp [typeLine_ne_empty])]
    rw [List.filter_append]
    simp
  · intro s
    exact tuple_lines_count s.entries

theorem c4_witness :
    (Graph.dataLines (mkGraph "T" "d"
        [⟨some "g1", [⟨some "A", "xy", [[PyVal.int 1, PyVal.int 2], [PyVal.float .nan]]⟩]⟩])).filter
        (fun l => l ≠ "")
      = ["@target G0.S0\n", "@type xy\n", "1 2\n", "&\n"] := by
  have h := (c4_data_section (mkGraph "T" "d"
    [⟨some "g1", [⟨some "A", "xy", [[PyVal.int 1, PyVal.int 2], [PyVal.float .nan]]⟩]⟩])).1
  rw [h]
  decide

/-! ## C7 — the legend-before-group assertion -/

theorem chStarts_mem (p s : List Char) (h : chStarts p s = true) : ∀ c ∈ p, c ∈ s := by
  induction p generalizing s with
  | nil => intro c hc; cases hc
  | cons a as ih =>
    cases s with
    | nil => simp [chStarts] at h
    | cons b bs =>
      simp only [chStarts, Bool.and_eq_true, decide_eq_true_eq] at h
      obtain ⟨rfl, hrest⟩ := h
      intro c hc
      rcases List.mem_cons.mp hc with rfl | hc'
      · exact List.mem_cons_self _ _
      · exact List.mem_cons_of_mem _ (ih bs hrest c hc')

theorem legendPatAt_quote (cs : List Char) (h : legendPatAt cs = true) : '"' ∈ cs := by
  unfold legendPatAt at h
  split at h
  · rename_i c rest
    have h2 := ((Bool.and_eq_true _ _).mp h).2
    have hq : '"' ∈ rest := chStarts_mem _ _ h2 '"' (by decide)
    simp [hq]
  · exact absurd h (by simp)

theorem anyTail_legendPat_quote (cs : List Char) (h : anyTail legendPatAt cs = true) :
    '"' ∈ cs := by
  induction cs with
  | nil => exact absurd h (by decide)
  | cons c cs ih =>
    rw [anyTail] at h
    rcases (Bool.or_eq_true _ _).mp h with h1 | h1
    · exact legendPatAt_quote _ h1
    · exact List.mem_cons_of_mem _ (ih h1)

theorem hasLegendPat_quote (s : String) (h : hasLegendPat s = true) : '"' ∈ s.data :=
  anyTail_legendPat_quote s.data h

theorem mem_dropWhile_of_not {c : Char} (hw : isPyWs c = false) :
    ∀ l : List Char, c ∈ l → c ∈ l.dropWhile isPyWs := by
  intro l hc
  have hsplit := List.takeWhile_append_dropWhile isPyWs l
  rcases List.mem_append.mp (hsplit ▸ hc) with h1 | h1
  · have := List.mem_takeWhile_imp h1
    rw [hw] at this
    cases this
  · exact h1

theorem parseDigits_all (ds : List Char) (n : ℕ) (h : parseDigits ds = some n) :
    ∀ c ∈ ds, c.isDigit = true := by
  unfold parseDigits at h
  split at h
  · rename_i hcond
    intro c hc
    exact List.all_eq_true.mp ((Bool.and_eq_true _ _).mp hcond).2 c hc
  · cases h

theorem parseIntPy_no_quote (s : String) (k : ℤ) (h : parseIntPy s = some k) :
    '"' ∉ s.data := by
  intro hq
  have hqt : '"' ∈ ((s.data.dropWhile isPyWs).reverse.dropWhile isPyWs).reverse := by
    rw [List.mem_reverse]
    apply mem_dropWhile_of_not (by decide)
    rw [List.mem_reverse]
    exact mem_dropWhile_of_not (by decide) _ hq
  simp only [parseIntPy] at h
  split at h
  · rename_i ds heq
    rw [heq] at hqt
    cases hpd : parseDigits ds with
    | none => rw [hpd] at h; simp at h
    | some n =>
      rcases List.mem_cons.mp hqt with hq1 | hq1
      · cases hq1
      · exact absurd (parseDigits_all ds n hpd '"' hq1) (by decide)
  · rename_i ds heq
    rw [heq] at hqt
    cases hpd : parseDigits ds with
    | none => rw [hpd] at h; simp at h
    | some n =>
      rcases List.mem_cons.mp hqt with hq1 | hq1
      · cases hq1
      · exact absurd (parseDigits_all ds n hpd '"' hq1) (by decide)
  · cases hpd : parseDigits (((s.data.dropWhile isPyWs).reverse.dropWhile isPyWs).reverse) with
    | none => rw [hpd] at h; simp at h
    | some n => exact absurd (parseDigits_all _ n hpd '"' hqt) (by decide)

theorem except_map_ne_error (f : List String → List String)
    (x : Except MergeErr (List String)) (e : MergeErr) (h : x ≠ .error e) :
    Except.map f x ≠ .error e := by
  cases x with
  | error e' => simpa [Except.map] using h
  | ok v => simp [Except.map]

theorem mergeLines_some_ne_assert (gr : Graph) (lines : List String) :
    ∀ k : ℤ, mergeLines gr (some k) lines ≠ .error .assertNoGroup := by
  induction lines with
  | nil =>
    intro k
    rw [mergeLines]
    simp
  | cons line rest ih =>
    intro k
    have hbody : ∀ gv : ℤ,
        (if hasLegendPat line then
           if gr.legendKey gv (firstDigitRunS line) then
             (mergeLines gr (some gv) rest).map
               (fun out => gr.legendAt gv (firstDigitRunS line) :: out)
           else mergeLines gr (some gv) rest
         else if strStarts "@    subtitle \"" line then
           if gr.subtitleKey (some gv) then
             (mergeLines gr (some gv) rest).map (fun out => gr.subtitleAt (some gv) :: out)
           else mergeLines gr (some gv) rest
         else if strStarts "@target G" line then .ok gr.dataLines
         else if strStarts "@description" line then mergeLines gr (some gv) rest
         else
           (mergeLines gr (some gv) rest).map (fun out =>
             line ::
               ((if !gr.description.isEmpty && strStarts "@page size " line
                 then gr.description else []) ++ out))) ≠ .error .assertNoGroup := by
      intro gv
      by_cases h1 : hasLegendPat line = true
      · simp only [h1, if_true]
        by_cases h2 : gr.legendKey gv (firstDigitRunS line) = true
        · simp only [h2, if_true]
          exact except_map_ne_error _ _ _ (ih gv)
        · simp only [h2, if_false, Bool.false_eq_true]
          exact ih gv
      · simp only [h1, if_false, Bool.false_eq_true]
        by_cases h2 : strStarts "@    subtitle \"" line = true
        · simp only [h2, if_true]
          by_cases h3 : gr.subtitleKey (some gv) = true
          · simp only [h3, if_true]
            exact except_map_ne_error _ _ _ (ih gv)
          · simp only [h3, if_false, Bool.false_eq_true]
            exact ih gv
        · simp only [h2, if_false, Bool.false_eq_true]
          by_cases h3 : strStarts "@target G" line = true
          · simp only [h3, if_true]
            simp
          · simp only [h3, if_false, Bool.false_eq_true]
            by_cases h4 : strStarts "@description" line = true
            · simp only [h4, if_true]
              exact ih gv
            · simp only [h4, if_false, Bool.false_eq_true]
              exact except_map_ne_error _ _ _ (ih gv)
    rw [mergeLines]
    by_cases hwg : strStarts "@with g" line = true
    · rw [show lineGroup (some k) line
          = (match parseIntPy ⟨removeWithG line.data⟩ with
             | none => Except.error (.badWithG line)
             | some k' => Except.ok (some k')) by simp [lineGroup, hwg]]
      cases hp : parseIntPy ⟨removeWithG line.data⟩ with
      | none => simp
      | some k' => exact hbody k'
    · rw [show lineGroup (some k) line = .ok (some k) by simp [lineGroup, hwg]]
      exact hbody k

theorem mergeLines_withg_absorb (gr : Graph) (line : String) (rest : List String)
    (g₀ : Option ℤ) (k' : ℤ)
    (hwg : strStarts "@with g" line = true)
    (hp : parseIntPy ⟨removeWithG line.data⟩ = some k') :
    mergeLines gr g₀ (line :: rest) = mergeLines gr (some k') (line :: rest) := by
  rw [mergeLines, mergeLines]
  rw [show lineGroup g₀ line = .ok (some k') by simp [lineGroup, hwg, hp],
    show lineGroup (some k') line = .ok (some k') by simp [lineGroup, hwg, hp]]

/-- C7: scanning a file, (i) a line matching the legend pattern reached before
any `@with g` or `@target G` line makes `create_file` abort with the
legend-before-group assertion; and (ii) if every legend-matching line is
preceded by some `@with g` line, that assertion never fires. -/
theorem c7_assertion :
    (∀ (gr : Graph) (pre post : List String) (l : String),
        hasLegendPat l = true → strStarts "@with g" l = false →
        (∀ p ∈ pre, strStarts "@with g" p = false ∧ strStarts "@target G" p = false) →
        create_file gr (pre ++ l :: post) = .error .assertNoGroup) ∧
    (∀ (gr : Graph) (lines : List String),
        (∀ pre l post, lines = pre ++ l :: post → hasLegendPat l = true →
          ∃ p ∈ pre, strStarts "@with g" p = true) →
        create_file gr lines ≠ .error .assertNoGroup) := by
  constructor
  · intro gr pre post l hpat hwg hpre
    show mergeLines gr none (pre ++ l :: post) = .error .assertNoGroup
    induction pre with
    | nil =>
      rw [List.nil_append, mergeLines]
      rw [show lineGroup none l = .ok none by simp [lineGroup, hwg]]
      simp only [hpat, if_true]
    | cons p pre' ih =>
      obtain ⟨hpw, hpt⟩ := hpre p (List.mem_cons_self _ _)
      have ih' := ih (fun q hq => hpre q (List.mem_cons_of_mem _ hq))
      rw [List.cons_append, mergeLines]
      rw [show lineGroup none p = .ok none by simp [lineGroup, hpw]]
      by_cases h1 : hasLegendPat p = true
      · simp only [h1, if_true]
      · simp only [h1, if_false, Bool.false_eq_true]
        by_cases h2 : strStarts "@    subtitle \"" p = true
        · simp only [h2, if_true]
          rw [show gr.subtitleKey none = false from rfl]
          simp only [Bool.false_eq_true, if_false]
          exact ih'
        · simp only [h2, if_false, Bool.false_eq_true]
          simp only [hpt, if_false, Bool.false_eq_true]
          by_cases h4 : strStarts "@description" p = true
          · simp only [h4, if_true]
            exact ih'
          · simp only [h4, if_false, Bool.false_eq_true]
            rw [ih']
            rfl
  · intro gr lines H
    show mergeLines gr none lines ≠ .error .assertNoGroup
    induction lines with
    | nil =>
      rw [mergeLines]
      simp
    | cons line rest ih =>
      by_cases hwg : strStarts "@with g" line = true
      · cases hp : parseIntPy ⟨removeWithG line.data⟩ with
        | none =>
          rw [mergeLines]
          rw [show lineGroup none line = .error (.badWithG line) by simp [lineGroup, hwg, hp]]
          simp
        | some k' =>
          rw [mergeLines_withg_absorb gr line rest none k' hwg hp]
          exact mergeLines_some_ne_assert gr (line :: rest) k'
      · have H' : ∀ pre l post, rest = pre ++ l :: post → hasLegendPat l = true →
            ∃ p ∈ pre, strStarts "@with g" p = true := by
          intro pre l post hre hl
          obtain ⟨p, hp, hq⟩ := H (line :: pre) l post (by rw [hre, List.cons_append]) hl
          rcases List.mem_cons.mp hp with rfl | hp'
          · exact absurd hq (by simp [hwg])
          · exact ⟨p, hp', hq⟩
        have ih' := ih H'
        rw [mergeLines]
        rw [show lineGroup none line = .ok none by simp [lineGroup, hwg]]
        by_cases h1 : hasLegendPat line = true
        · exfalso
          obtain ⟨p, hp, _⟩ := H [] line rest rfl h1
          cases hp
        · simp only [h1, if_false, Bool.false_eq_true]
          by_cases h2 : strStarts "@    subtitle \"" line = true
          · simp only [h2, if_true]
            rw [show gr.subtitleKey none = false from rfl]
            simp only [Bool.false_eq_true, if_false]
            exact ih'
          · simp only [h2, if_false, Bool.false_eq_true]
            by_cases h3 : strStarts "@target G" line = true
            · simp only [h3, if_true]
              simp
            · simp only [h3, if_false, Bool.false_eq_true]
              by_cases h4 : strStarts "@description" line = true
              · simp only [h4, if_true]
                exact ih'
              · simp only [h4, if_false, Bool.false_eq_true]
                exact except_map_ne_error _ _ _ ih'

theorem c7_witness :
    create_file (mkGraph "T" "d" []) ["# passthrough\n", "@    s0 legend  \"x\"\n"]
      = .error .assertNoGroup ∧
    create_file (mkGraph "T" "d" []) ["@with g0\n", "@    s0 legend  \"x\"\n"]
      ≠ .error .assertNoGroup := by
  constructor
  · exact c7_assertion.1 (mkGraph "T" "d" []) ["# passthrough\n"] []
      "@    s0 legend  \"x\"\n" (by decide) (by decide) (by decide)
  · apply c7_assertion.2 (mkGraph "T" "d" []) ["@with g0\n", "@    s0 legend  \"x\"\n"]
    intro pre l post heq hl
    match pre, heq with
    | [], heq =>
      have : l = "@with g0\n" := by
        have := congrArg (fun x => x.headD "") heq
        simpa using this.symm
      rw [this] at hl
      exact absurd hl (by decide)
    | [a], heq =>
      have ha : a = "@with g0\n" := by
        have := congrArg (fun x => x.headD "") heq
        simpa using this.symm
      exact ⟨a, List.mem_singleton.mpr rfl, by rw [ha]; decide⟩
    | a :: b :: pre', heq =>
      exfalso
      have hlen := congrArg List.length heq
      simp only [List.length_cons, List.length_append, List.length_nil] at hlen
      omega

/-! ## C8 — shrinkage scenario fixtures and theorems -/

/-- An existing file with legend lines for sets 0 and 1, a per-set formatting
(passthrough) line for set 1, and a data section. -/
def shrinkOrig : List String :=
  ["# Grace project file\n", "@with g0\n", "@    s0 legend  \"old0\"\n",
   "@    s1 legend  \"old1\"\n", "@    s1 line color 2\n", "@target G0.S0\n"]

/-- First-run model: one group with two sets `A`, `B`. -/
def shrinkTwo : Graph :=
  mkGraph "T1" "d"
    [⟨some "g", [⟨some "A", "xy", [[PyVal.int 1, PyVal.int 2]]⟩,
                 ⟨some "B", "xy", [[PyVal.int 3, PyVal.int 4]]⟩]⟩]

/-- Second-run model: set `B` removed. -/
def shrinkOne : Graph :=
  mkGraph "T2" "d" [⟨some "g", [⟨some "A", "xy", [[PyVal.int 1, PyVal.int 2]]⟩]⟩]

/-- The file produced by the first run. -/
def shrinkFile1 : List String :=
  ["# Grace project file\n", "@with g0\n", "@    s0 legend  \"A\"\n",
   "@    s1 legend  \"B\"\n", "@    s1 line color 2\n",
   "@target G0.S0\n", "@type xy\n", "1 2\n", "&\n",
   "@target G0.S1\n", "@type xy\n", "3 4\n", "&\n"]

/-- The file produced by the second run. -/
def shrinkFile2 : List String :=
  ["# Grace project file\n", "@with g0\n", "@    s0 legend  \"A\"\n",
   "@    s1 line color 2\n", "@target G0.S0\n", "@type xy\n", "1 2\n", "&\n"]

/-- C8 as written is false on the code: after removing set 1 from the model,
the next single run *drops* the old `@    s1 legend` directive — the second
run's output contains no legend-matching line with set index 1. -/
theorem c8_counterexample :
    create_file shrinkTwo shrinkOrig = .ok shrinkFile1 ∧
    create_file shrinkOne shrinkFile1 = .ok shrinkFile2 ∧
    (∀ l ∈ shrinkFile2, hasLegendPat l = true → firstDigitRunS l ≠ 1) := by
  refine ⟨by rfl, by rfl, by decide⟩

/-- C8 amended: after one run with the shrunk model the stale legend directive
for the removed index is gone, while the stale per-set *formatting* line for
the removed index (a passthrough line, per the source docstring's vestigial
`@lines`) does remain. -/
theorem c8_amended :
    create_file shrinkTwo shrinkOrig = .ok shrinkFile1 ∧
    create_file shrinkOne shrinkFile1 = .ok shrinkFile2 ∧
    "@    s1 legend  \"B\"\n" ∈ shrinkFile1 ∧
    "@    s1 legend  \"B\"\n" ∉ shrinkFile2 ∧
    "@    s1 line color 2\n" ∈ shrinkFile2 := by
  refine ⟨by rfl, by rfl, by decide, by decide, by decide⟩

/-! ## Prefix and line-shape toolkit (for C2 and C1) -/

theorem chStarts_refl (p : List Char) : chStarts p p = true := by
  induction p with
  | nil => rfl
  | cons a as ih => simp [chStarts, ih]

theorem chStarts_of_append (p q x : List Char) (h : chStarts p q = true) :
    chStarts p (q ++ x) = true := by
  induction p generalizing q with
  | nil => rfl
  | cons a as ih =>
    cases q with
    | nil => simp [chStarts] at h
    | cons b bs =>
      simp only [chStarts, Bool.and_eq_true, decide_eq_true_eq] at h ⊢
      exact ⟨h.1, ih bs h.2⟩

theorem chStarts_self_append (p x : List Char) : chStarts p (p ++ x) = true :=
  chStarts_of_append p p x (chStarts_refl p)

theorem chStarts_compat (p q s : List Char) (hp : chStarts p s = true)
    (hq : chStarts q s = true) : chStarts p q = true ∨ chStarts q p = true := by
  induction s generalizing p q with
  | nil =>
    cases p with
    | nil => exact Or.inl rfl
    | cons a as => simp [chStarts] at hp
  | cons c cs ih =>
    cases p with
    | nil => exact Or.inl rfl
    | cons a as =>
      cases q with
      | nil => exact Or.inr rfl
      | cons b bs =>
        simp only [chStarts, Bool.and_eq_true, decide_eq_true_eq] at hp hq
        obtain ⟨rfl, hp2⟩ := hp
        obtain ⟨rfl, hq2⟩ := hq
        rcases ih as bs hp2 hq2 with h | h
        · exact Or.inl (by simp [chStarts, h])
        · exact Or.inr (by simp [chStarts, h])

/-- Two textually incompatible prefixes cannot both start the same line. -/
theorem strStarts_excl (p q s : String)
    (hpq : chStarts p.data q.data = false) (hqp : chStarts q.data p.data = false)
    (h : strStarts p s = true) : strStarts q s = false := by
  cases hq : strStarts q s
  · rfl
  · rcases chStarts_compat p.data q.data s.data h hq with hc | hc
    · rw [hpq] at hc; cases hc
    · rw [hqp] at hc; cases hc

theorem strStarts_append_of (p q : String) (x : String)
    (h : chStarts p.data q.data = true) : strStarts p (q ++ x) = true := by
  unfold strStarts
  rw [String.data_append]
  exact chStarts_of_append _ _ _ h

theorem subtitleLine_starts (lbl : String) :
    strStarts "@    subtitle \"" (subtitleLine lbl) = true := by
  unfold subtitleLine
  rw [strAppend_assoc]
  exact strStarts_append_of _ _ _ (chStarts_refl _)

theorem withGLine_starts (gi : ℕ) : strStarts "@with g" (withGLine gi) = true := by
  unfold withGLine
  rw [strAppend_assoc]
  exact strStarts_append_of _ _ _ (chStarts_refl _)

theorem targetLine_starts (gi si : ℕ) : strStarts "@target G" (targetLine gi si) = true := by
  unfold targetLine
  rw [strAppend_assoc, strAppend_assoc, strAppend_assoc]
  exact strStarts_append_of _ _ _ (chStarts_refl _)

theorem tsDescLine_starts (ts : String) :
    strStarts "@description \"Last Updated: " (tsDescLine ts) = true := by
  unfold tsDescLine
  rw [strAppend_assoc]
  exact strStarts_append_of _ _ _ (chStarts_refl _)

theorem mkDescription_all_desc (ts d : String) :
    ∀ l ∈ mkDescription ts d, strStarts "@description" l = true := by
  intro l hl
  unfold mkDescription at hl
  rcases List.mem_cons.mp hl with rfl | hl
  · unfold tsDescLine
    rw [strAppend_assoc]
    exact strStarts_append_of _ _ _ (by decide)
  rcases List.mem_cons.mp hl with rfl | hl
  · exact strStarts_append_of _ _ _ (by decide)
  rcases List.mem_append.mp hl with hl | hl
  · obtain ⟨x, _, rfl⟩ := List.mem_map.mp hl
    rw [strAppend_assoc]
    exact strStarts_append_of _ _ _ (by decide)
  · rw [List.mem_singleton.mp hl]
    exact strStarts_append_of _ _ _ (by decide)

theorem legendLine_data (s : ℕ) (hs : s < 10) (lbl : String) :
    (legendLine s lbl).data
      = '@' :: ' ' :: ' ' :: ' ' :: ' ' :: 's' :: digitCh s ::
          (" legend  \"".data ++ (lbl.data ++ ['"', '\n'])) := by
  unfold legendLine
  simp only [String.data_append, natStr_data_lt s hs]
  simp

theorem legendLine_pat (s : ℕ) (hs : s < 10) (lbl : String) :
    hasLegendPat (legendLine s lbl) = true := by
  unfold hasLegendPat
  rw [legendLine_data s hs lbl, anyTail]
  apply (Bool.or_eq_true _ _).mpr
  left
  show (digitCh s).isDigit && chStarts " legend  \"".data (" legend  \"".data ++ (lbl.data ++ ['"', '\n'])) = true
  rw [digitCh_isDigit s hs, chStarts_self_append]
  rfl

theorem mkGraph_subtitleAt_starts (ts d : String) (dss : List RawGroup) (g : Option ℤ)
    (h : (mkGraph ts d dss).subtitleKey g = true) :
    strStarts "@    subtitle \"" ((mkGraph ts d dss).subtitleAt g) = true := by
  cases g with
  | none => exact absurd h (by simp [Graph.subtitleKey])
  | some k =>
    simp only [Graph.subtitleKey, Bool.and_eq_true, decide_eq_true_eq] at h
    have hk : k.toNat < (mkGraph ts d dss).subtitle.length := h.2
    show strStarts _ ((mkGraph ts d dss).subtitle.getD k.toNat "") = true
    have hk' : k.toNat < dss.length := by
      simpa [mkGraph] using hk
    rw [List.getD_eq_getElem?_getD]
    show strStarts _
      (((List.map (fun rg => subtitleLine (rg.label.getD "")) dss)[k.toNat]?).getD "") = true
    rw [List.getElem?_map, List.getElem?_eq_getElem hk']
    exact subtitleLine_starts _

theorem mkGraph_legendAt_pat (ts d : String) (dss : List RawGroup) (k : ℤ) (s : ℕ)
    (hs : s < 10) (h : (mkGraph ts d dss).legendKey k s = true) :
    hasLegendPat ((mkGraph ts d dss).legendAt k s) = true := by
  simp only [Graph.legendKey, Bool.and_eq_true, decide_eq_true_eq] at h
  obtain ⟨⟨_, hk⟩, hsl⟩ := h
  have hk2 : k.toNat < dss.length := by simpa [mkGraph] using hk
  have h1 : (mkGraph ts d dss).legend.getD k.toNat []
      = (dss.get ⟨k.toNat, hk2⟩).sets.enum.map
          (fun p => legendLine p.1 (p.2.label.getD "")) := by
    rw [List.getD_eq_getElem?_getD]
    show ((List.map _ dss)[k.toNat]?).getD [] = _
    rw [List.getElem?_map, List.getElem?_eq_getElem hk2]
    rfl
  rw [h1] at hsl
  have hs2 : s < (dss.get ⟨k.toNat, hk2⟩).sets.length := by simpa using hsl
  show hasLegendPat (((mkGraph ts d dss).legend.getD k.toNat []).getD s "") = true
  rw [h1, List.getD_eq_getElem?_getD, List.getElem?_map, List.getElem?_enum,
    List.getElem?_eq_getElem hs2]
  simpa using legendLine_pat s hs
    (((dss.get ⟨k.toNat, hk2⟩).sets.get ⟨s, hs2⟩).label.getD "")

/-! ## C2 — passthrough preservation -/

theorem removeWithG_mem_quote : ∀ cs : List Char, '"' ∈ cs → '"' ∈ removeWithG cs := by
  intro cs
  induction cs using removeWithG.induct with
  | case1 rest ih =>
    intro h
    rw [removeWithG]
    apply ih
    simp only [List.mem_cons] at h
    rcases h with h | h | h | h | h | h | h | h
    all_goals first
      | (exact absurd h (by decide))
      | exact h
  | case2 c cs hne ih =>
    intro h
    rw [removeWithG.eq_2 _ _ hne]
    rcases List.mem_cons.mp h with rfl | h
    · exact List.mem_cons_self _ _
    · exact List.mem_cons_of_mem _ (ih h)
  | case3 =>
    intro h
    cases h

theorem withg_parse_not_legendPat (line : String) (k : ℤ)
    (hp : parseIntPy ⟨removeWithG line.data⟩ = some k) :
    hasLegendPat line = false := by
  cases hq : hasLegendPat line
  · rfl
  · exact absurd (removeWithG_mem_quote _ (hasLegendPat_quote _ hq))
      (parseIntPy_no_quote _ _ hp)

theorem except_map_eq_ok (f : List String → List String)
    (x : Except MergeErr (List String)) (y : List String)
    (h : Except.map f x = .ok y) : ∃ v, x = .ok v ∧ y = f v := by
  cases x with
  | error e => simp [Except.map] at h
  | ok v =>
    refine ⟨v, rfl, ?_⟩
    simpa [Except.map] using h.symm

theorem emittedTail_cons (gr : Graph) (line : String) (rest : List String)
    (h : strStarts "@target G" line = false) :
    emittedTail gr (line :: rest) = emittedTail gr rest := by
  simp [emittedTail, h]

theorem mkDescription_filter_nil (ts d : String) :
    (mkDescription ts d).filter isPassthrough = [] := by
  rw [List.filter_eq_nil_iff]
  intro l hl
  have := mkDescription_all_desc ts d l hl
  simp [isPassthrough, this]

/-- C2 amended, master form: for a model-built graph, scanning from any group
state, a successful merge's output filters (on the passthrough classifier) to
exactly the passthrough lines of the original that precede the first
data-section marker, followed by whatever passthrough-classified lines the
regenerated tail contributes.  The hypothesis restricts original
legend-matching lines to single-digit set indices not doubling as `@target G`
lines (true of well-formed xmgrace files); without it the replacement legend
line could itself be passthrough-classified. -/
theorem mergeLines_passthrough (ts d : String) (dss : List RawGroup) :
    ∀ (lines : List String) (g : Option ℤ) (out : List String),
      (∀ l ∈ lines, hasLegendPat l = true →
        firstDigitRunS l < 10 ∧ strStarts "@target G" l = false) →
      mergeLines (mkGraph ts d dss) g lines = .ok out →
      out.filter isPassthrough
        = (lines.takeWhile (fun l => !strStarts "@target G" l)).filter isPassthrough
          ++ (emittedTail (mkGraph ts d dss) lines).filter isPassthrough := by
  intro lines
  induction lines with
  | nil =>
    intro g out _ h
    rw [mergeLines] at h
    simp only [Except.ok.injEq] at h
    subst h
    simp [emittedTail]
  | cons line rest ih =>
    intro g out Hwf h
    have Hwf' : ∀ l ∈ rest, hasLegendPat l = true →
        firstDigitRunS l < 10 ∧ strStarts "@target G" l = false :=
      fun l hl => Hwf l (List.mem_cons_of_mem _ hl)
    rw [mergeLines] at h
    by_cases hwg : strStarts "@with g" line = true
    · rw [show lineGroup g line
          = (match parseIntPy ⟨removeWithG line.data⟩ with
             | none => Except.error (.badWithG line)
             | some k' => Except.ok (some k')) by simp [lineGroup, hwg]] at h
      cases hp : parseIntPy ⟨removeWithG line.data⟩ with
      | none => rw [hp] at h; simp at h
      | some k' =>
        rw [hp] at h
        have hnl : hasLegendPat line = false := withg_parse_not_legendPat line k' hp
        have hsub : strStarts "@    subtitle \"" line = false :=
          strStarts_excl _ _ _ (by decide) (by decide) hwg
        have htgt : strStarts "@target G" line = false :=
          strStarts_excl _ _ _ (by decide) (by decide) hwg
        have hdesc : strStarts "@description" line = false :=
          strStarts_excl _ _ _ (by decide) (by decide) hwg
        have hpage : strStarts "@page size " line = false :=
          strStarts_excl _ _ _ (by decide) (by decide) hwg
        simp only [hnl, hsub, htgt, hdesc, Bool.false_eq_true, if_false] at h
        rw [show (!(mkGraph ts d dss).description.isEmpty && strStarts "@page size " line)
            = false by rw [hpage]; simp] at h
        simp only [Bool.false_eq_true, if_false, List.nil_append] at h
        obtain ⟨out', hout', rfl⟩ := except_map_eq_ok _ _ _ h
        have hnp : isPassthrough line = false := by simp [isPassthrough, hwg]
        rw [List.filter_cons, if_neg (by simp [hnp])]
        rw [List.takeWhile_cons, if_pos (by simp [htgt]), List.filter_cons,
          if_neg (by simp [hnp]), emittedTail_cons _ _ _ htgt]
        exact ih (some k') out' Hwf' hout'
    · rw [show lineGroup g line = .ok g by simp [lineGroup, hwg]] at h
      by_cases h1 : hasLegendPat line = true
      · obtain ⟨hs10, htgt⟩ := Hwf line (List.mem_cons_self _ _) h1
        cases g with
        | none => simp only [h1, if_true] at h; simp at h
        | some k =>
          simp only [h1, if_true] at h
          have hnp2 : isPassthrough line = false := by simp [isPassthrough, h1]
          by_cases h2 : (mkGraph ts d dss).legendKey k (firstDigitRunS line) = true
          · simp only [h2, if_true] at h
            obtain ⟨out', hout', rfl⟩ := except_map_eq_ok _ _ _ h
            have hpat := mkGraph_legendAt_pat ts d dss k _ hs10 h2
            have hnp : isPassthrough
                ((mkGraph ts d dss).legendAt k (firstDigitRunS line)) = false := by
              simp [isPassthrough, hpat]
            rw [List.filter_cons, if_neg (by simp [hnp])]
            rw [List.takeWhile_cons, if_pos (by simp [htgt]), List.filter_cons,
              if_neg (by simp [hnp2]), emittedTail_cons _ _ _ htgt]
            exact ih (some k) out' Hwf' hout'
          · simp only [h2, Bool.false_eq_true, if_false] at h
            rw [List.takeWhile_cons, if_pos (by simp [htgt]), List.filter_cons,
              if_neg (by simp [hnp2]), emittedTail_cons _ _ _ htgt]
            exact ih (some k) out Hwf' h
      · simp only [h1, Bool.false_eq_true, if_false] at h
        by_cases h2 : strStarts "@    subtitle \"" line = true
        · have htgt : strStarts "@target G" line = false :=
            strStarts_excl _ _ _ (by decide) (by decide) h2
          have hnp2 : isPassthrough line = false := by simp [isPassthrough, h2]
          simp only [h2, if_true] at h
          by_cases h3 : (mkGraph ts d dss).subtitleKey g = true
          · simp only [h3, if_true] at h
            obtain ⟨out', hout', rfl⟩ := except_map_eq_ok _ _ _ h
            have hsubp := mkGraph_subtitleAt_starts ts d dss g h3
            have hnp : isPassthrough ((mkGraph ts d dss).subtitleAt g) = false := by
              simp [isPassthrough, hsubp]
            rw [List.filter_cons, if_neg (by simp [hnp])]
            rw [List.takeWhile_cons, if_pos (by simp [htgt]), List.filter_cons,
              if_neg (by simp [hnp2]), emittedTail_cons _ _ _ htgt]
            exact ih g out' Hwf' hout'
          · simp only [h3, Bool.false_eq_true, if_false] at h
            rw [List.takeWhile_cons, if_pos (by simp [htgt]), List.filter_cons,
              if_neg (by simp [hnp2]), emittedTail_cons _ _ _ htgt]
            exact ih g out Hwf' h
        · simp only [h2, Bool.false_eq_true, if_false] at h
          by_cases h3 : strStarts "@target G" line = true
          · simp only [h3, if_true, Except.ok.injEq] at h
            subst h
            rw [List.takeWhile_cons, if_neg (by simp [h3])]
            rw [show emittedTail (mkGraph ts d dss) (line :: rest)
                = (mkGraph ts d dss).dataLines by simp [emittedTail, h3]]
            simp
          · have h3' : strStarts "@target G" line = false := Bool.eq_false_iff.mpr h3
            simp only [h3, Bool.false_eq_true, if_false] at h
            by_cases h4 : strStarts "@description" line = true
            · have hnp2 : isPassthrough line = false := by simp [isPassthrough, h4]
              simp only [h4, if_true] at h
              rw [List.takeWhile_cons, if_pos (by simp [h3']), List.filter_cons,
                if_neg (by simp [hnp2]), emittedTail_cons _ _ _ h3']
              exact ih g out Hwf' h
            · simp only [h4, Bool.false_eq_true, if_false] at h
              obtain ⟨out', hout', rfl⟩ := except_map_eq_ok _ _ _ h
              have hpt : isPassthrough line = true := by
                simp only [isPassthrough, Bool.eq_false_iff.mpr hwg,
                  Bool.eq_false_iff.mpr h1, Bool.eq_false_iff.mpr h2, h3',
                  Bool.eq_false_iff.mpr h4]
                rfl
              have hrhs : List.filter isPassthrough
                    (List.takeWhile (fun l => !strStarts "@target G" l) (line :: rest))
                  = line :: List.filter isPassthrough
                      (List.takeWhile (fun l => !strStarts "@target G" l) rest) := by
                rw [List.takeWhile_cons, if_pos (by simp [h3']), List.filter_cons,
                  if_pos (by simp [hpt])]
              by_cases h5 : (!(mkGraph ts d dss).description.isEmpty
                  && strStarts "@page size " line) = true
              · rw [if_pos h5]
                rw [show List.filter isPassthrough
                      (line :: ((mkGraph ts d dss).description ++ out'))
                    = line :: List.filter isPassthrough out' by
                  rw [List.filter_cons, if_pos (by simp [hpt]), List.filter_append,
                    show (mkGraph ts d dss).description = mkDescription ts d from rfl,
                    mkDescription_filter_nil, List.nil_append]]
                rw [hrhs, emittedTail_cons _ _ _ h3', List.cons_append,
                  ih g out' Hwf' hout']
              · have h5' : (!(mkGraph ts d dss).description.isEmpty
                    && strStarts "@page size " line) = false := Bool.eq_false_iff.mpr h5
                rw [if_neg (by simp [h5']), List.nil_append]
                rw [show List.filter isPassthrough (line :: out')
                    = line :: List.filter isPassthrough out' by
                  rw [List.filter_cons, if_pos (by simp [hpt])]]
                rw [hrhs, emittedTail_cons _ _ _ h3', List.cons_append,
                  ih g out' Hwf' hout']

/-- C2 as written is false on the code: a passthrough line that follows the
first data-section marker is discarded, not preserved — here `'# mine'` is a
non-directive line of the original file absent from the merged output. -/
theorem c2_counterexample :
    create_file (mkGraph "T" "d" []) ["@target G0.S0\n", "# mine\n"] = .ok [] ∧
    isPassthrough "# mine\n" = true ∧
    ("# mine\n" : String) ∉ ([] : List String) := by
  refine ⟨by rfl, by decide, by decide⟩

/-- C2 amended: passthrough lines *before the first data-section start
marker* are preserved verbatim, without duplication and in order; every other
passthrough-classified line of the output comes from the regenerated tail
(data section, plus first-run label blocks).  Stated for files whose
legend-matching lines carry single-digit set indices and do not double as
`@target G` lines. -/
theorem c2_passthrough (ts d : String) (dss : List RawGroup)
    (lines out : List String)
    (Hwf : ∀ l ∈ lines, hasLegendPat l = true →
      firstDigitRunS l < 10 ∧ strStarts "@target G" l = false)
    (h : create_file (mkGraph ts d dss) lines = .ok out) :
    out.filter isPassthrough
      = (lines.takeWhile (fun l => !strStarts "@target G" l)).filter isPassthrough
        ++ (emittedTail (mkGraph ts d dss) lines).filter isPassthrough :=
  mergeLines_passthrough ts d dss lines none out Hwf h

theorem c2_witness :
    shrinkFile1.filter isPassthrough
      = (shrinkOrig.takeWhile (fun l => !strStarts "@target G" l)).filter isPassthrough
        ++ (emittedTail shrinkTwo shrinkOrig).filter isPassthrough := by
  exact c2_passthrough "T1" "d"
    [⟨some "g", [⟨some "A", "xy", [[PyVal.int 1, PyVal.int 2]]⟩,
                 ⟨some "B", "xy", [[PyVal.int 3, PyVal.int 4]]⟩]⟩]
    shrinkOrig shrinkFile1 (by decide) (by rfl)

/-! ## C1 infrastructure: line-shape facts -/

theorem digit_not_ws (c : Char) (h : c.isDigit = true) : isPyWs c = false := by
  by_cases h1 : c = ' '
  · subst h1; exact absurd h (by decide)
  by_cases h2 : c = '\t'
  · subst h2; exact absurd h (by decide)
  by_cases h3 : c = '\n'
  · subst h3; exact absurd h (by decide)
  by_cases h4 : c = '\r'
  · subst h4; exact absurd h (by decide)
  by_cases h5 : c = '\x0b'
  · subst h5; exact absurd h (by decide)
  by_cases h6 : c = '\x0c'
  · subst h6; exact absurd h (by decide)
  simp [isPyWs, h1, h2, h3, h4, h5, h6]

theorem removeWithG_id (cs : List Char) (h : '@' ∉ cs) : removeWithG cs = cs := by
  induction cs using removeWithG.induct with
  | case1 rest ih => exact absurd (by simp) h
  | case2 c cs hne ih =>
    rw [removeWithG.eq_2 _ _ hne, ih (fun hc => h (List.mem_cons_of_mem _ hc))]
  | case3 => rfl

theorem withGLine_data (gi : ℕ) :
    (withGLine gi).data = '@' :: 'w' :: 'i' :: 't' :: 'h' :: ' ' :: 'g' ::
      ((natStr gi).data ++ ['\n']) := by
  unfold withGLine
  simp only [String.data_append]
  simp

theorem natStr_no_at (gi : ℕ) : '@' ∉ (natStr gi).data ++ ['\n'] := by
  intro h
  rcases List.mem_append.mp h with h | h
  · exact absurd (natStr_all_digits gi '@' h) (by decide)
  · simp at h

theorem parse_withGLine (gi : ℕ) :
    parseIntPy ⟨removeWithG (withGLine gi).data⟩ = some (gi : ℤ) := by
  rw [withGLine_data]
  rw [show removeWithG ('@' :: 'w' :: 'i' :: 't' :: 'h' :: ' ' :: 'g' ::
      ((natStr gi).data ++ ['\n'])) = removeWithG ((natStr gi).data ++ ['\n']) from rfl]
  rw [removeWithG_id _ (natStr_no_at gi)]
  obtain ⟨d0, ds, hds⟩ : ∃ d0 ds, (natStr gi).data = d0 :: ds := by
    cases h : (natStr gi).data with
    | nil => exact absurd h (natStr_ne_nil gi)
    | cons a as => exact ⟨a, as, rfl⟩
  have hall : ∀ c ∈ (natStr gi).data, c.isDigit = true := natStr_all_digits gi
  have hd0 : d0.isDigit = true := hall d0 (by rw [hds]; exact List.mem_cons_self _ _)
  unfold parseIntPy
  have hdrop1 : ((natStr gi).data ++ ['\n']).dropWhile isPyWs = (natStr gi).data ++ ['\n'] := by
    rw [hds, List.cons_append, List.dropWhile_cons]
    rw [digit_not_ws d0 hd0]
    simp
  have hdrop2 : (((natStr gi).data ++ ['\n']).reverse.dropWhile isPyWs).reverse
      = (natStr gi).data := by
    rw [List.reverse_append]
    simp only [List.reverse_cons, List.reverse_nil, List.nil_append, List.singleton_append,
      List.dropWhile_cons]
    rw [show isPyWs '\n' = true by decide]
    simp only [if_true]
    have : (natStr gi).data.reverse.dropWhile isPyWs = (natStr gi).data.reverse := by
      cases hrev : (natStr gi).data.reverse with
      | nil => rfl
      | cons r rs =>
        rw [List.dropWhile_cons]
        have hr : r.isDigit = true := by
          apply hall
          rw [← List.mem_reverse, hrev]
          exact List.mem_cons_self _ _
        rw [digit_not_ws r hr]
        simp
    rw [this, List.reverse_reverse]
  show (match (((String.mk ((natStr gi).data ++ ['\n'])).data.dropWhile
        isPyWs).reverse.dropWhile isPyWs).reverse with
    | '-' :: ds => (parseDigits ds).map (fun n => -(n : ℤ))
    | '+' :: ds => (parseDigits ds).map (fun n => (n : ℤ))
    | ds => (parseDigits ds).map (fun n => (n : ℤ))) = some (gi : ℤ)
  rw [show (String.mk ((natStr gi).data ++ ['\n'])).data = (natStr gi).data ++ ['\n'] from rfl]
  rw [hdrop1, hdrop2, hds]
  have hne1 : d0 ≠ '-' := by
    intro hc; rw [hc] at hd0; exact absurd hd0 (by decide)
  have hne2 : d0 ≠ '+' := by
    intro hc; rw [hc] at hd0; exact absurd hd0 (by decide)
  have hparse : parseDigits (d0 :: ds) = some (digitsVal (d0 :: ds)) := by
    unfold parseDigits
    rw [if_pos]
    simp only [Bool.and_eq_true, decide_eq_true_eq]
    refine ⟨by simp, List.all_eq_true.mpr ?_⟩
    intro c hc
    exact hall c (by rw [hds]; exact hc)
  split
  · rename_i heq
    rw [List.cons.injEq] at heq
    exact absurd heq.1 hne1
  · rename_i heq
    rw [List.cons.injEq] at heq
    exact absurd heq.1 hne2
  · rw [hparse]
    have hv : digitsVal (d0 :: ds) = gi := by rw [← hds]; exact digitsVal_natStr gi
    rw [hv]
    simp

theorem takeWhile_digits_append (ds : List Char) (c : Char) (R : List Char)
    (hds : ∀ x ∈ ds, x.isDigit = true) (hc : c.isDigit = false) :
    (ds ++ c :: R).takeWhile Char.isDigit = ds := by
  induction ds with
  | nil => simp [List.takeWhile_cons, hc]
  | cons a as ih =>
    rw [List.cons_append, List.takeWhile_cons, hds a (List.mem_cons_self _ _)]
    simp only [if_true]
    rw [ih (fun x hx => hds x (List.mem_cons_of_mem _ hx))]

theorem legendLine_data_gen (si : ℕ) (lbl : String) :
    (legendLine si lbl).data
      = '@' :: ' ' :: ' ' :: ' ' :: ' ' :: 's' ::
        ((natStr si).data ++ (" legend  \"".data ++ (lbl.data ++ ['"', '\n']))) := by
  unfold legendLine
  simp only [String.data_append]
  simp

theorem firstDigitRun_legendLine (si : ℕ) (lbl : String) :
    firstDigitRunS (legendLine si lbl) = si := by
  unfold firstDigitRunS
  rw [legendLine_data_gen]
  obtain ⟨d0, ds, hds⟩ : ∃ d0 ds, (natStr si).data = d0 :: ds := by
    cases h : (natStr si).data with
    | nil => exact absurd h (natStr_ne_nil si)
    | cons a as => exact ⟨a, as, rfl⟩
  have hall : ∀ c ∈ (natStr si).data, c.isDigit = true := natStr_all_digits si
  have hd0 : d0.isDigit = true := hall d0 (by rw [hds]; exact List.mem_cons_self _ _)
  rw [hds]
  show firstDigitRun ('@' :: ' ' :: ' ' :: ' ' :: ' ' :: 's' ::
    ((d0 :: ds) ++ (" legend  \"".data ++ (lbl.data ++ ['"', '\n'])))) = si
  rw [firstDigitRun]
  rw [show ('@' : Char).isDigit = false by decide]
  simp only [Bool.false_eq_true, if_false]
  rw [firstDigitRun]
  rw [show (' ' : Char).isDigit = false by decide]
  simp only [Bool.false_eq_true, if_false]
  rw [firstDigitRun]
  rw [show (' ' : Char).isDigit = false by decide]
  simp only [Bool.false_eq_true, if_false]
  rw [firstDigitRun]
  rw [show (' ' : Char).isDigit = false by decide]
  simp only [Bool.false_eq_true, if_false]
  rw [firstDigitRun]
  rw [show (' ' : Char).isDigit = false by decide]
  simp only [Bool.false_eq_true, if_false]
  rw [firstDigitRun]
  rw [show ('s' : Char).isDigit = false by decide]
  simp only [Bool.false_eq_true, if_false]
  rw [List.cons_append, firstDigitRun, hd0]
  simp only [if_true]
  rw [← List.cons_append]
  rw [show (" legend  \"".data ++ (lbl.data ++ ['"', '\n']))
      = ' ' :: ("legend  \"".data ++ (lbl.data ++ ['"', '\n'])) from rfl]
  rw [takeWhile_digits_append _ _ _ (fun x hx => hall x (by rw [hds]; exact hx)) (by decide)]
  rw [← hds]
  exact digitsVal_natStr si

/-! ## C1 infrastructure: classification of emitted lines -/

theorem natStr_head_digit (n : ℕ) :
    ∃ d0 ds, (natStr n).data = d0 :: ds ∧ d0.isDigit = true := by
  cases h : (natStr n).data with
  | nil => exact absurd h (natStr_ne_nil n)
  | cons a as =>
    refine ⟨a, as, rfl, ?_⟩
    exact natStr_all_digits n a (by rw [h]; exact List.mem_cons_self _ _)

theorem legendLine_starts6 (si : ℕ) (lbl : String) :
    strStarts "@    s" (legendLine si lbl) = true := by
  unfold legendLine
  rw [strAppend_assoc, strAppend_assoc, strAppend_assoc]
  exact strStarts_append_of _ _ _ (chStarts_refl _)

theorem legendLine_not_withg (si : ℕ) (lbl : String) :
    strStarts "@with g" (legendLine si lbl) = false :=
  strStarts_excl "@    s" "@with g" _ (by decide) (by decide) (legendLine_starts6 si lbl)

theorem legendLine_not_target (si : ℕ) (lbl : String) :
    strStarts "@target G" (legendLine si lbl) = false :=
  strStarts_excl "@    s" "@target G" _ (by decide) (by decide) (legendLine_starts6 si lbl)

theorem legendLine_not_desc (si : ℕ) (lbl : String) :
    strStarts "@description" (legendLine si lbl) = false :=
  strStarts_excl "@    s" "@description" _ (by decide) (by decide) (legendLine_starts6 si lbl)

theorem legendLine_not_page (si : ℕ) (lbl : String) :
    strStarts "@page size " (legendLine si lbl) = false :=
  strStarts_excl "@    s" "@page size " _ (by decide) (by decide) (legendLine_starts6 si lbl)

theorem legendLine_not_ts (si : ℕ) (lbl : String) :
    isTsLine (legendLine si lbl) = false := by
  have h1 := strStarts_excl "@    s" "@timestamp def \"" _ (by decide) (by decide)
    (legendLine_starts6 si lbl)
  have h2 := strStarts_excl "@    s" "@description \"Last Updated: " _ (by decide) (by decide)
    (legendLine_starts6 si lbl)
  simp [isTsLine, h1, h2]

theorem legendLine_not_subtitle (si : ℕ) (lbl : String) :
    strStarts "@    subtitle \"" (legendLine si lbl) = false := by
  obtain ⟨d0, ds, hds, hd0⟩ := natStr_head_digit si
  unfold strStarts
  rw [legendLine_data_gen, hds]
  have hne : ('u' = d0) = False := by
    simp only [eq_iff_iff, iff_false]
    intro hc
    rw [← hc] at hd0
    exact absurd hd0 (by decide)
  rw [show ("@    subtitle \"" : String).data
      = '@' :: ' ' :: ' ' :: ' ' :: ' ' :: 's' :: 'u' :: "btitle \"".data from rfl]
  simp [chStarts, List.cons_append, hne]

theorem subtitleLine_not_withg (lbl : String) :
    strStarts "@with g" (subtitleLine lbl) = false :=
  strStarts_excl "@    subtitle \"" "@with g" _ (by decide) (by decide) (subtitleLine_starts lbl)

theorem subtitleLine_not_target (lbl : String) :
    strStarts "@target G" (subtitleLine lbl) = false :=
  strStarts_excl "@    subtitle \"" "@target G" _ (by decide) (by decide) (subtitleLine_starts lbl)

theorem subtitleLine_not_desc (lbl : String) :
    strStarts "@description" (subtitleLine lbl) = false :=
  strStarts_excl "@    subtitle \"" "@description" _ (by decide) (by decide)
    (subtitleLine_starts lbl)

theorem subtitleLine_not_page (lbl : String) :
    strStarts "@page size " (subtitleLine lbl) = false :=
  strStarts_excl "@    subtitle \"" "@page size " _ (by decide) (by decide)
    (subtitleLine_starts lbl)

theorem subtitleLine_not_ts (lbl : String) : isTsLine (subtitleLine lbl) = false := by
  have h1 := strStarts_excl "@    subtitle \"" "@timestamp def \"" _ (by decide) (by decide)
    (subtitleLine_starts lbl)
  have h2 := strStarts_excl "@    subtitle \"" "@description \"Last Updated: " _ (by decide)
    (by decide) (subtitleLine_starts lbl)
  simp [isTsLine, h1, h2]

theorem withGLine_not_subtitle (gi : ℕ) :
    strStarts "@    subtitle \"" (withGLine gi) = false :=
  strStarts_excl "@with g" "@    subtitle \"" _ (by decide) (by decide) (withGLine_starts gi)

theorem withGLine_not_target (gi : ℕ) : strStarts "@target G" (withGLine gi) = false :=
  strStarts_excl "@with g" "@target G" _ (by decide) (by decide) (withGLine_starts gi)

theorem withGLine_not_desc (gi : ℕ) : strStarts "@description" (withGLine gi) = false :=
  strStarts_excl "@with g" "@description" _ (by decide) (by decide) (withGLine_starts gi)

theorem withGLine_not_page (gi : ℕ) : strStarts "@page size " (withGLine gi) = false :=
  strStarts_excl "@with g" "@page size " _ (by decide) (by decide) (withGLine_starts gi)

theorem withGLine_not_ts (gi : ℕ) : isTsLine (withGLine gi) = false := by
  have h1 := strStarts_excl "@with g" "@timestamp def \"" _ (by decide) (by decide)
    (withGLine_starts gi)
  have h2 := strStarts_excl "@with g" "@description \"Last Updated: " _ (by decide) (by decide)
    (withGLine_starts gi)
  simp [isTsLine, h1, h2]

theorem withGLine_no_quote (gi : ℕ) : '"' ∉ (withGLine gi).data := by
  rw [withGLine_data]
  intro h
  simp only [List.mem_cons] at h
  rcases h with h | h | h | h | h | h | h | h
  · cases h
  · cases h
  · cases h
  · cases h
  · cases h
  · cases h
  · cases h
  · rcases List.mem_append.mp h with h | h
    · exact absurd (natStr_all_digits gi '"' h) (by decide)
    · simp at h

theorem withGLine_no_pat (gi : ℕ) : hasLegendPat (withGLine gi) = false := by
  cases h : hasLegendPat (withGLine gi)
  · rfl
  · exact absurd (hasLegendPat_quote _ h) (withGLine_no_quote gi)

theorem targetLine_data (gi si : ℕ) :
    (targetLine gi si).data
      = "@target G".data ++ ((natStr gi).data ++ (".S".data ++ ((natStr si).data ++ ['\n']))) := by
  unfold targetLine
  simp only [String.data_append]
  simp

theorem targetLine_no_quote (gi si : ℕ) : '"' ∉ (targetLine gi si).data := by
  rw [targetLine_data]
  intro h
  rcases List.mem_append.mp h with h | h
  · exact absurd h (by decide)
  rcases List.mem_append.mp h with h | h
  · exact absurd (natStr_all_digits gi '"' h) (by decide)
  rcases List.mem_append.mp h with h | h
  · exact absurd h (by decide)
  rcases List.mem_append.mp h with h | h
  · exact absurd (natStr_all_digits si '"' h) (by decide)
  · simp at h

theorem targetLine_no_pat (gi si : ℕ) : hasLegendPat (targetLine gi si) = false := by
  cases h : hasLegendPat (targetLine gi si)
  · rfl
  · exact absurd (hasLegendPat_quote _ h) (targetLine_no_quote gi si)

theorem targetLine_not_withg (gi si : ℕ) : strStarts "@with g" (targetLine gi si) = false :=
  strStarts_excl "@target G" "@with g" _ (by decide) (by decide) (targetLine_starts gi si)

theorem targetLine_not_subtitle (gi si : ℕ) :
    strStarts "@    subtitle \"" (targetLine gi si) = false :=
  strStarts_excl "@target G" "@    subtitle \"" _ (by decide) (by decide)
    (targetLine_starts gi si)

theorem strStarts_ne_empty (p s : String) (hp : p.data ≠ []) (h : strStarts p s = true) :
    s ≠ "" := by
  intro hc
  subst hc
  unfold strStarts at h
  cases hd : p.data with
  | nil => exact hp hd
  | cons a as => rw [hd] at h; exact absurd h (by simp [chStarts])

theorem legendLine_ne_empty (si : ℕ) (lbl : String) : legendLine si lbl ≠ "" :=
  strStarts_ne_empty _ _ (by decide) (legendLine_starts6 si lbl)

theorem subtitleLine_ne_empty (lbl : String) : subtitleLine lbl ≠ "" :=
  strStarts_ne_empty _ _ (by decide) (subtitleLine_starts lbl)

theorem withGLine_ne_empty (gi : ℕ) : withGLine gi ≠ "" :=
  strStarts_ne_empty _ _ (by decide) (withGLine_starts gi)

/-! ## C1 infrastructure: model accessors for `mkGraph` -/

theorem mkGraph_subtitleAt_eq (ts d : String) (dss : List RawGroup) (k : ℤ)
    (h : (mkGraph ts d dss).subtitleKey (some k) = true) :
    ∃ hk : k.toNat < dss.length,
      (mkGraph ts d dss).subtitleAt (some k)
        = subtitleLine ((dss.get ⟨k.toNat, hk⟩).label.getD "") := by
  simp only [Graph.subtitleKey, Bool.and_eq_true, decide_eq_true_eq] at h
  have hk : k.toNat < dss.length := by simpa [mkGraph] using h.2
  refine ⟨hk, ?_⟩
  show (mkGraph ts d dss).subtitle.getD k.toNat "" = _
  rw [List.getD_eq_getElem?_getD]
  show ((List.map (fun rg => subtitleLine (rg.label.getD "")) dss)[k.toNat]?).getD "" = _
  rw [List.getElem?_map, List.getElem?_eq_getElem hk]
  rfl

theorem mkGraph_legendAt_eq (ts d : String) (dss : List RawGroup) (k : ℤ) (s : ℕ)
    (h : (mkGraph ts d dss).legendKey k s = true) :
    ∃ (hk : k.toNat < dss.length) (hs : s < (dss.get ⟨k.toNat, hk⟩).sets.length),
      (mkGraph ts d dss).legendAt k s
        = legendLine s (((dss.get ⟨k.toNat, hk⟩).sets.get ⟨s, hs⟩).label.getD "") := by
  simp only [Graph.legendKey, Bool.and_eq_true, decide_eq_true_eq] at h
  obtain ⟨⟨_, hk0⟩, hsl⟩ := h
  have hk : k.toNat < dss.length := by simpa [mkGraph] using hk0
  have h1 : (mkGraph ts d dss).legend.getD k.toNat []
      = (dss.get ⟨k.toNat, hk⟩).sets.enum.map
          (fun p => legendLine p.1 (p.2.label.getD "")) := by
    rw [List.getD_eq_getElem?_getD]
    show ((List.map _ dss)[k.toNat]?).getD [] = _
    rw [List.getElem?_map, List.getElem?_eq_getElem hk]
    rfl
  rw [h1] at hsl
  have hs : s < (dss.get ⟨k.toNat, hk⟩).sets.length := by simpa using hsl
  refine ⟨hk, hs, ?_⟩
  show (((mkGraph ts d dss).legend.getD k.toNat []).getD s "") = _
  rw [h1, List.getD_eq_getElem?_getD, List.getElem?_map, List.getElem?_enum,
    List.getElem?_eq_getElem hs]
  simp

/-! ## C1 infrastructure: timestamp filtering -/

theorem isTsLine_tsDescLine (t : String) : isTsLine (tsDescLine t) = true := by
  simp [isTsLine, tsDescLine_starts]

theorem filterTs_cons_ts (x : String) (xs : List String) (h : isTsLine x = true) :
    filterTs (x :: xs) = filterTs xs := by
  simp [filterTs, List.filter_cons, h]

theorem filterTs_cons_keep (x : String) (xs : List String) (h : isTsLine x = false) :
    filterTs (x :: xs) = x :: filterTs xs := by
  simp [filterTs, List.filter_cons, h]

theorem filterTs_append (a b : List String) : filterTs (a ++ b) = filterTs a ++ filterTs b :=
  List.filter_append a b

theorem mkDescription_tail (d : String) :
    ∃ T, ∀ t, mkDescription t d = tsDescLine t :: T :=
  ⟨_, fun _ => rfl⟩

theorem filterTs_mkDescription (t1 t2 d : String) :
    filterTs (mkDescription t1 d) = filterTs (mkDescription t2 d) := by
  obtain ⟨T, hT⟩ := mkDescription_tail d
  rw [hT t1, hT t2, filterTs_cons_ts _ _ (isTsLine_tsDescLine t1),
    filterTs_cons_ts _ _ (isTsLine_tsDescLine t2)]

/-! ## C1 infrastructure: description lines are skipped -/

theorem mergeLines_desc_skip (gr : Graph) :
    ∀ (ds : List String) (rest : List String) (g : Option ℤ),
      (∀ l ∈ ds, strStarts "@description" l = true ∧ hasLegendPat l = false) →
      mergeLines gr g (ds ++ rest) = mergeLines gr g rest := by
  intro ds
  induction ds with
  | nil => intro rest g _; rw [List.nil_append]
  | cons l ds' ih =>
    intro rest g H
    obtain ⟨hd, hnp⟩ := H l (List.mem_cons_self _ _)
    have hw : strStarts "@with g" l = false :=
      strStarts_excl "@description" "@with g" _ (by decide) (by decide) hd
    have hsub : strStarts "@    subtitle \"" l = false :=
      strStarts_excl "@description" "@    subtitle \"" _ (by decide) (by decide) hd
    have htgt : strStarts "@target G" l = false :=
      strStarts_excl "@description" "@target G" _ (by decide) (by decide) hd
    rw [List.cons_append, mergeLines]
    rw [show lineGroup g l = .ok g by simp [lineGroup, hw]]
    simp only [hnp, hsub, htgt, Bool.false_eq_true, if_false, hd, if_true]
    exact ih rest g (fun x hx => H x (List.mem_cons_of_mem _ hx))

/-! ## C1 infrastructure: the second run reproduces the regenerated tail -/

theorem groups_flatten_head (gs : List Group)
    (h : (gs.map Group.as_list).flatten ≠ []) :
    ∃ gi si tail, (gs.map Group.as_list).flatten = targetLine gi si :: tail := by
  induction gs with
  | nil => simp at h
  | cons G gs' ih =>
    rw [List.map_cons, List.flatten_cons] at h ⊢
    cases henum : G.sets.enum with
    | nil =>
      rw [show Group.as_list G = [] by
        rw [show Group.as_list G = (G.sets.enum.map
            (fun p => targetLine G.index p.1 :: (p.2.as_list ++ ["&\n"]))).flatten from rfl,
          henum]
        rfl] at h ⊢
      rw [List.nil_append] at h ⊢
      exact ih h
    | cons q qs =>
      refine ⟨G.index, q.1,
        ((q.2.as_list ++ ["&\n"]) ++ (qs.map
          (fun p => targetLine G.index p.1 :: (p.2.as_list ++ ["&\n"]))).flatten)
          ++ (gs'.map Group.as_list).flatten, ?_⟩
      rw [show Group.as_list G = (G.sets.enum.map
          (fun p => targetLine G.index p.1 :: (p.2.as_list ++ ["&\n"]))).flatten from rfl,
        henum, List.map_cons, List.flatten_cons]
      rw [List.cons_append, List.cons_append]

theorem run2_target_head (gr : Graph) (gi si : ℕ) (tail : List String) (g : Option ℤ) :
    mergeLines gr g (targetLine gi si :: tail) = .ok gr.dataLines := by
  rw [mergeLines]
  rw [show lineGroup g (targetLine gi si) = .ok g by
    simp [lineGroup, targetLine_not_withg]]
  simp only [targetLine_no_pat, targetLine_not_subtitle, Bool.false_eq_true, if_false,
    targetLine_starts, if_true]

theorem run2_datalines (gr : Graph) (h : gr.dataLines ≠ []) (g : Option ℤ) :
    mergeLines gr g gr.dataLines = .ok gr.dataLines := by
  obtain ⟨gi, si, tail, heq0⟩ := groups_flatten_head gr.data h
  have heq : gr.dataLines = targetLine gi si :: tail := heq0
  rw [heq, run2_target_head, heq]

theorem run2_lines_self (gr : Graph) (i : ℤ) :
    ∀ (ls suffix out : List String),
      (∀ l ∈ ls, ∃ j lbl, l = legendLine j lbl ∧
        (hasLegendPat l = true → gr.legendKey i j = true ∧ gr.legendAt i j = l)) →
      mergeLines gr (some i) suffix = .ok out →
      mergeLines gr (some i) (ls ++ suffix) = .ok (ls ++ out) := by
  intro ls
  induction ls with
  | nil => intro suffix out _ h; simpa using h
  | cons l ls' ih =>
    intro suffix out H h
    obtain ⟨j, lbl, rfl, hleg⟩ := H l (List.mem_cons_self _ _)
    have hrest := ih suffix out (fun x hx => H x (List.mem_cons_of_mem _ hx)) h
    rw [List.cons_append, mergeLines]
    rw [show lineGroup (some i) (legendLine j lbl) = .ok (some i) by
      simp [lineGroup, legendLine_not_withg]]
    by_cases hp : hasLegendPat (legendLine j lbl) = true
    · obtain ⟨hkey, hat⟩ := hleg hp
      simp only [hp, if_true]
      rw [firstDigitRun_legendLine]
      simp only [hkey, if_true]
      rw [hrest]
      rw [show Except.map (fun out => gr.legendAt i j :: out)
          (Except.ok (ε := MergeErr) (ls' ++ out))
          = .ok (gr.legendAt i j :: (ls' ++ out)) from rfl]
      rw [hat]
      rfl
    · have hp' : hasLegendPat (legendLine j lbl) = false := Bool.eq_false_iff.mpr hp
      simp only [hp', legendLine_not_subtitle, legendLine_not_target, legendLine_not_desc,
        Bool.false_eq_true, if_false]
      rw [hrest]
      rw [show (!gr.description.isEmpty && strStarts "@page size " (legendLine j lbl))
          = false by rw [legendLine_not_page]; simp]
      rfl

theorem run2_blocks (gr : Graph) :
    ∀ (ps : List (ℕ × String)) (X : List String),
      (∀ p ∈ ps,
        gr.subtitleKey (some (p.1 : ℤ)) = true ∧
        gr.subtitleAt (some (p.1 : ℤ)) = p.2 ∧
        hasLegendPat p.2 = false ∧
        strStarts "@    subtitle \"" p.2 = true ∧
        (∀ l ∈ gr.legend.getD p.1 [], ∃ j lbl, l = legendLine j lbl ∧
          (hasLegendPat l = true → gr.legendKey (p.1 : ℤ) j = true ∧
            gr.legendAt (p.1 : ℤ) j = l))) →
      (∀ g, mergeLines gr g X = .ok X) →
      ∀ g, mergeLines gr g
          ((ps.map (fun p => withGLine p.1 :: p.2 :: gr.legend.getD p.1 [])).flatten ++ X)
        = .ok ((ps.map (fun p => withGLine p.1 :: p.2 :: gr.legend.getD p.1 [])).flatten ++ X) := by
  intro ps
  induction ps with
  | nil => intro X _ hX g; simpa using hX g
  | cons p ps' ih =>
    intro X H hX g
    obtain ⟨hsk, hsa, hsnp, hss, hleg⟩ := H p (List.mem_cons_self _ _)
    have hih := ih X (fun q hq => H q (List.mem_cons_of_mem _ hq)) hX
    rw [List.map_cons, List.flatten_cons]
    simp only [List.cons_append, List.append_assoc]
    have hlegrun : mergeLines gr (some (p.1 : ℤ))
        (gr.legend.getD p.1 []
          ++ ((ps'.map (fun q => withGLine q.1 :: q.2 :: gr.legend.getD q.1 [])).flatten ++ X))
        = .ok (gr.legend.getD p.1 []
          ++ ((ps'.map (fun q => withGLine q.1 :: q.2 :: gr.legend.getD q.1 [])).flatten ++ X)) :=
      run2_lines_self gr (p.1 : ℤ) _ _ _ hleg (hih _)
    have hsubrun : mergeLines gr (some (p.1 : ℤ))
        (p.2 :: (gr.legend.getD p.1 []
          ++ ((ps'.map (fun q => withGLine q.1 :: q.2 :: gr.legend.getD q.1 [])).flatten ++ X)))
        = .ok (p.2 :: (gr.legend.getD p.1 []
          ++ ((ps'.map (fun q => withGLine q.1 :: q.2 :: gr.legend.getD q.1 [])).flatten ++ X))) := by
      rw [mergeLines]
      rw [show lineGroup (some (p.1 : ℤ)) p.2 = .ok (some (p.1 : ℤ)) by
        simp [lineGroup, strStarts_excl "@    subtitle \"" "@with g" _ (by decide) (by decide) hss]]
      simp only [hsnp, Bool.false_eq_true, if_false, hss, if_true, hsk]
      rw [hlegrun]
      rw [show Except.map (fun out => gr.subtitleAt (some (p.1 : ℤ)) :: out)
          (Except.ok (ε := MergeErr) (gr.legend.getD p.1 []
            ++ ((ps'.map (fun q => withGLine q.1 :: q.2 :: gr.legend.getD q.1 [])).flatten ++ X)))
          = .ok (gr.subtitleAt (some (p.1 : ℤ)) :: (gr.legend.getD p.1 []
            ++ ((ps'.map (fun q => withGLine q.1 :: q.2 :: gr.legend.getD q.1 [])).flatten ++ X)))
          from rfl]
      rw [hsa]
    rw [mergeLines]
    rw [show lineGroup g (withGLine p.1) = .ok (some (p.1 : ℤ)) by
      simp [lineGroup, withGLine_starts, parse_withGLine]]
    simp only [withGLine_no_pat, withGLine_not_subtitle, withGLine_not_target,
      withGLine_not_desc, Bool.false_eq_true, if_false]
    rw [hsubrun]
    rw [show (!gr.description.isEmpty && strStarts "@page size " (withGLine p.1))
        = false by rw [withGLine_not_page]; simp]
    rfl

/-! ## C1 infrastructure: the second run reproduces the bootstrap blocks -/

theorem run2_bootstrap (t1 t2 d : String) (dss : List RawGroup)
    (Hsub : ∀ rg ∈ dss, hasLegendPat (subtitleLine (rg.label.getD "")) = false)
    (Hne : (mkGraph t1 d dss).dataLines ≠ [] ∨ dss = []) :
    ∀ g, mergeLines (mkGraph t2 d dss) g
        ((mkGraph t1 d dss).labelBootstrap ++ (mkGraph t1 d dss).dataLines)
      = .ok ((mkGraph t1 d dss).labelBootstrap ++ (mkGraph t1 d dss).dataLines) := by
  have hX : ∀ g', mergeLines (mkGraph t2 d dss) g' (mkGraph t1 d dss).dataLines
      = .ok (mkGraph t1 d dss).dataLines := by
    rcases Hne with hne | hnil
    · intro g'
      have h2 : (mkGraph t1 d dss).dataLines = (mkGraph t2 d dss).dataLines := rfl
      rw [h2] at hne ⊢
      exact run2_datalines _ hne g'
    · subst hnil
      intro g'
      rfl
  intro g
  refine run2_blocks (mkGraph t2 d dss) ((mkGraph t2 d dss).subtitle.enum)
      (mkGraph t1 d dss).dataLines ?_ hX g
  intro p hp
  obtain ⟨i, st⟩ := p
  have hp0 : (mkGraph t2 d dss).subtitle[i]? = some st :=
    (List.mk_mem_enum_iff_getElem?).mp hp
  have hp1 : (dss.map (fun rg => subtitleLine (rg.label.getD "")))[i]? = some st := hp0
  rw [List.getElem?_map] at hp1
  cases hq : dss[i]? with
  | none => rw [hq] at hp1; simp at hp1
  | some rg =>
    rw [hq] at hp1
    simp only [Option.map_some'] at hp1
    have hst : st = subtitleLine (rg.label.getD "") := (Option.some.injEq _ _ ▸ hp1).symm
    obtain ⟨hilen, hget⟩ := List.getElem?_eq_some.mp hq
    have hrgmem : rg ∈ dss := by rw [← hget]; exact List.getElem_mem hilen
    have hleg_eq : (mkGraph t2 d dss).legend.getD i []
        = rg.sets.enum.map (fun q => legendLine q.1 (q.2.label.getD "")) := by
      show (dss.map (fun rg =>
          rg.sets.enum.map (fun q => legendLine q.1 (q.2.label.getD "")))).getD i [] = _
      rw [List.getD_eq_getElem?_getD, List.getElem?_map, hq]
      rfl
    refine ⟨?_, ?_, ?_, ?_, ?_⟩
    · simp only [Graph.subtitleKey, Bool.and_eq_true, decide_eq_true_eq]
      refine ⟨Int.natCast_nonneg i, ?_⟩
      rw [Int.toNat_natCast]
      show i < (dss.map (fun rg => subtitleLine (rg.label.getD ""))).length
      simpa using hilen
    · show (mkGraph t2 d dss).subtitle.getD ((i : ℤ)).toNat "" = st
      rw [Int.toNat_natCast, List.getD_eq_getElem?_getD, hp0]
      rfl
    · rw [hst]
      exact Hsub rg hrgmem
    · rw [hst]
      exact subtitleLine_starts _
    · intro l hl
      have hl2 : l ∈ rg.sets.enum.map (fun q => legendLine q.1 (q.2.label.getD "")) := by
        rw [← hleg_eq]; exact hl
      obtain ⟨q, hq2, rfl⟩ := List.mem_map.mp hl2
      obtain ⟨j, rs⟩ := q
      have hq3 : rg.sets[j]? = some rs := (List.mk_mem_enum_iff_getElem?).mp hq2
      obtain ⟨hjlen, _⟩ := List.getElem?_eq_some.mp hq3
      refine ⟨j, rs.label.getD "", rfl, fun _ => ⟨?_, ?_⟩⟩
      · simp only [Graph.legendKey, Bool.and_eq_true, decide_eq_true_eq]
        refine ⟨⟨Int.natCast_nonneg i, ?_⟩, ?_⟩
        · rw [Int.toNat_natCast]
          show i < (dss.map (fun rg =>
            rg.sets.enum.map (fun q => legendLine q.1 (q.2.label.getD "")))).length
          simpa using hilen
        · rw [Int.toNat_natCast, hleg_eq]
          simpa using hjlen
      · show ((mkGraph t2 d dss).legend.getD ((i : ℤ)).toNat []).getD j ""
          = legendLine j (rs.label.getD "")
        rw [Int.toNat_natCast, hleg_eq, List.getD_eq_getElem?_getD, List.getElem?_map,
          List.getElem?_enum, hq3]
        rfl

/-! ## C1: the second-run simulation -/

theorem filterTs_cons_congr (l : String) (A B : List String)
    (h : filterTs A = filterTs B) : filterTs (l :: A) = filterTs (l :: B) := by
  by_cases ht : isTsLine l = true
  · rw [filterTs_cons_ts _ _ ht, filterTs_cons_ts _ _ ht, h]
  · have ht' := Bool.eq_false_iff.mpr ht
    rw [filterTs_cons_keep _ _ ht', filterTs_cons_keep _ _ ht', h]

/-- The heart of the idempotence analysis: rescanning a successful first run's
output with the same model (fresh timestamp `t2`) succeeds and differs at most
in timestamp lines. -/
theorem run2_sim (t1 t2 d : String) (dss : List RawGroup)
    (Hsub : ∀ rg ∈ dss, hasLegendPat (subtitleLine (rg.label.getD "")) = false)
    (Hd1 : ∀ l ∈ mkDescription t1 d, hasLegendPat l = false)
    (Hne : (mkGraph t1 d dss).dataLines ≠ [] ∨ dss = []) :
    ∀ (orig : List String) (g : Option ℤ) (out1 : List String),
      mergeLines (mkGraph t1 d dss) g orig = .ok out1 →
      ∃ out2, mergeLines (mkGraph t2 d dss) g out1 = .ok out2 ∧
        filterTs out2 = filterTs out1 := by
  intro orig
  induction orig with
  | nil =>
    intro g out1 h
    rw [mergeLines] at h
    simp only [Except.ok.injEq] at h
    subst h
    exact ⟨_, run2_bootstrap t1 t2 d dss Hsub Hne g, rfl⟩
  | cons line rest ih =>
    intro g out1 h
    rw [mergeLines] at h
    by_cases hwg : strStarts "@with g" line = true
    · rw [show lineGroup g line
          = (match parseIntPy ⟨removeWithG line.data⟩ with
             | none => Except.error (.badWithG line)
             | some k' => Except.ok (some k')) by simp [lineGroup, hwg]] at h
      cases hp : parseIntPy ⟨removeWithG line.data⟩ with
      | none => rw [hp] at h; simp at h
      | some k' =>
        rw [hp] at h
        have hnl : hasLegendPat line = false := withg_parse_not_legendPat line k' hp
        have hsubl : strStarts "@    subtitle \"" line = false :=
          strStarts_excl _ _ _ (by decide) (by decide) hwg
        have htgt : strStarts "@target G" line = false :=
          strStarts_excl _ _ _ (by decide) (by decide) hwg
        have hdesc : strStarts "@description" line = false :=
          strStarts_excl _ _ _ (by decide) (by decide) hwg
        have hpage : strStarts "@page size " line = false :=
          strStarts_excl _ _ _ (by decide) (by decide) hwg
        simp only [hnl, hsubl, htgt, hdesc, Bool.false_eq_true, if_false] at h
        rw [show (!(mkGraph t1 d dss).description.isEmpty && strStarts "@page size " line)
            = false by rw [hpage]; simp] at h
        simp only [Bool.false_eq_true, if_false, List.nil_append] at h
        obtain ⟨out', hout', rfl⟩ := except_map_eq_ok _ _ _ h
        obtain ⟨out2', hrun2, hfil⟩ := ih (some k') out' hout'
        refine ⟨line :: out2', ?_, filterTs_cons_congr _ _ _ hfil⟩
        rw [mergeLines]
        rw [show lineGroup g line = .ok (some k') by simp [lineGroup, hwg, hp]]
        simp only [hnl, hsubl, htgt, hdesc, Bool.false_eq_true, if_false]
        rw [hrun2]
        rw [show (!(mkGraph t2 d dss).description.isEmpty && strStarts "@page size " line)
            = false by rw [hpage]; simp]
        rfl
    · rw [show lineGroup g line = .ok g by simp [lineGroup, hwg]] at h
      by_cases h1 : hasLegendPat line = true
      · cases g with
        | none => simp only [h1, if_true] at h; simp at h
        | some k =>
          simp only [h1, if_true] at h
          by_cases h2 : (mkGraph t1 d dss).legendKey k (firstDigitRunS line) = true
          · simp only [h2, if_true] at h
            obtain ⟨out', hout', rfl⟩ := except_map_eq_ok _ _ _ h
            obtain ⟨out2', hrun2, hfil⟩ := ih (some k) out' hout'
            obtain ⟨hk, hs, hat⟩ := mkGraph_legendAt_eq t1 d dss k (firstDigitRunS line) h2
            have hsingle : mergeLines (mkGraph t2 d dss) (some k)
                ([(mkGraph t1 d dss).legendAt k (firstDigitRunS line)] ++ out')
                = .ok ([(mkGraph t1 d dss).legendAt k (firstDigitRunS line)] ++ out2') := by
              refine run2_lines_self (mkGraph t2 d dss) k _ _ _ ?_ hrun2
              intro l hl
              rw [List.mem_singleton] at hl
              subst hl
              exact ⟨firstDigitRunS line, _, hat, fun _ => ⟨h2, rfl⟩⟩
            exact ⟨(mkGraph t1 d dss).legendAt k (firstDigitRunS line) :: out2',
              hsingle, filterTs_cons_congr _ _ _ hfil⟩
          · simp only [h2, Bool.false_eq_true, if_false] at h
            exact ih (some k) out1 h
      · simp only [h1, Bool.false_eq_true, if_false] at h
        by_cases h2 : strStarts "@    subtitle \"" line = true
        · simp only [h2, if_true] at h
          by_cases h3 : (mkGraph t1 d dss).subtitleKey g = true
          · simp only [h3, if_true] at h
            obtain ⟨out', hout', rfl⟩ := except_map_eq_ok _ _ _ h
            obtain ⟨out2', hrun2, hfil⟩ := ih g out' hout'
            cases g with
            | none => exact absurd h3 (by simp [Graph.subtitleKey])
            | some k =>
              obtain ⟨hk, hat⟩ := mkGraph_subtitleAt_eq t1 d dss k h3
              have h3' : (mkGraph t2 d dss).subtitleKey (some k) = true := h3
              refine ⟨(mkGraph t1 d dss).subtitleAt (some k) :: out2', ?_,
                filterTs_cons_congr _ _ _ hfil⟩
              rw [mergeLines]
              have hstw : strStarts "@with g"
                  ((mkGraph t1 d dss).subtitleAt (some k)) = false := by
                rw [hat]; exact subtitleLine_not_withg _
              rw [show lineGroup (some k) ((mkGraph t1 d dss).subtitleAt (some k))
                  = .ok (some k) by simp [lineGroup, hstw]]
              have hstp : hasLegendPat ((mkGraph t1 d dss).subtitleAt (some k)) = false := by
                rw [hat]
                exact Hsub _ (List.getElem_mem hk)
              have hsts : strStarts "@    subtitle \""
                  ((mkGraph t1 d dss).subtitleAt (some k)) = true := by
                rw [hat]; exact subtitleLine_starts _
              simp only [hstp, Bool.false_eq_true, if_false, hsts, if_true, h3', hrun2]
              rfl
          · simp only [h3, Bool.false_eq_true, if_false] at h
            exact ih g out1 h
        · simp only [h2, Bool.false_eq_true, if_false] at h
          by_cases h3 : strStarts "@target G" line = true
          · simp only [h3, if_true, Except.ok.injEq] at h
            subst h
            refine ⟨(mkGraph t1 d dss).dataLines, ?_, rfl⟩
            rcases Hne with hne | hnil
            · have heq : (mkGraph t1 d dss).dataLines = (mkGraph t2 d dss).dataLines := rfl
              rw [heq] at hne ⊢
              exact run2_datalines _ hne g
            · subst hnil
              rfl
          · simp only [h3, Bool.false_eq_true, if_false] at h
            by_cases h4 : strStarts "@description" line = true
            · simp only [h4, if_true] at h
              exact ih g out1 h
            · simp only [h4, Bool.false_eq_true, if_false] at h
              obtain ⟨out', hout', rfl⟩ := except_map_eq_ok _ _ _ h
              obtain ⟨out2', hrun2, hfil⟩ := ih g out' hout'
              have hwg' : strStarts "@with g" line = false := Bool.eq_false_iff.mpr hwg
              have h1' : hasLegendPat line = false := Bool.eq_false_iff.mpr h1
              have h2' : strStarts "@    subtitle \"" line = false := Bool.eq_false_iff.mpr h2
              have h3' : strStarts "@target G" line = false := Bool.eq_false_iff.mpr h3
              have h4' : strStarts "@description" line = false := Bool.eq_false_iff.mpr h4
              by_cases h5 : strStarts "@page size " line = true
              · have hcond1 : (!(mkGraph t1 d dss).description.isEmpty
                    && strStarts "@page size " line) = true := by
                  rw [h5, show (mkGraph t1 d dss).description.isEmpty = false from rfl]
                  rfl
                simp only [hcond1, if_true]
                refine ⟨line :: ((mkGraph t2 d dss).description ++ out2'), ?_, ?_⟩
                · rw [mergeLines]
                  rw [show lineGroup g line = .ok g by simp [lineGroup, hwg']]
                  simp only [h1', h2', h3', h4', Bool.false_eq_true, if_false]
                  have hskip : mergeLines (mkGraph t2 d dss) g
                      ((mkGraph t1 d dss).description ++ out')
                      = mergeLines (mkGraph t2 d dss) g out' :=
                    mergeLines_desc_skip (mkGraph t2 d dss) ((mkGraph t1 d dss).description)
                      out' g (fun l hl => ⟨mkDescription_all_desc t1 d l hl, Hd1 l hl⟩)
                  rw [hskip, hrun2]
                  rw [show (!(mkGraph t2 d dss).description.isEmpty
                      && strStarts "@page size " line) = true by
                    rw [h5, show (mkGraph t2 d dss).description.isEmpty = false from rfl]
                    rfl]
                  rfl
                · apply filterTs_cons_congr
                  have hd : filterTs ((mkGraph t2 d dss).description)
                      = filterTs ((mkGraph t1 d dss).description) :=
                    filterTs_mkDescription t2 t1 d
                  rw [filterTs_append, filterTs_append, hfil, hd]
              · have hcond1 : (!(mkGraph t1 d dss).description.isEmpty
                    && strStarts "@page size " line) = false := by
                  rw [Bool.eq_false_iff.mpr h5]; simp
                simp only [hcond1, Bool.false_eq_true, if_false, List.nil_append]
                refine ⟨line :: out2', ?_, filterTs_cons_congr _ _ _ hfil⟩
                rw [mergeLines]
                rw [show lineGroup g line = .ok g by simp [lineGroup, hwg']]
                simp only [h1', h2', h3', h4', Bool.false_eq_true, if_false]
                rw [hrun2]
                rw [show (!(mkGraph t2 d dss).description.isEmpty
                    && strStarts "@page size " line) = false by
                  rw [Bool.eq_false_iff.mpr h5]; simp]
                rfl

/-! ## C1 infrastructure: a successful run emits no empty line -/

theorem mkDescription_no_empty (ts d : String) : ∀ l ∈ mkDescription ts d, l ≠ "" :=
  fun l hl => strStarts_ne_empty _ _ (by decide) (mkDescription_all_desc ts d l hl)

theorem dataLines_no_empty (ts d : String) (dss : List RawGroup)
    (Hfin : ∀ rg ∈ dss, ∀ rs ∈ rg.sets, ∀ e ∈ rs.entries,
      e.all (fun v => !pyHasInfNanText v) = true) :
    "" ∉ (mkGraph ts d dss).dataLines := by
  intro hmem
  have h0 : (mkGraph ts d dss).dataLines = ((dss.enum.map (fun p =>
      ({ index := p.1, label := p.2.label.getD "",
         sets := p.2.sets.map (fun rs => ⟨rs.label.getD "", rs.datatype, rs.entries⟩) }
        : Group))).map Group.as_list).flatten := rfl
  rw [h0, List.mem_flatten] at hmem
  obtain ⟨ls, hls, hmem2⟩ := hmem
  rw [List.mem_map] at hls
  obtain ⟨G, hG, rfl⟩ := hls
  rw [List.mem_map] at hG
  obtain ⟨p, hp, rfl⟩ := hG
  obtain ⟨i, rg⟩ := p
  have hq := (List.mk_mem_enum_iff_getElem?).mp hp
  obtain ⟨hilen, hget⟩ := List.getElem?_eq_some.mp hq
  have hrgmem : rg ∈ dss := by rw [← hget]; exact List.getElem_mem hilen
  have h1 : Group.as_list ⟨(i, rg).1, (i, rg).2.label.getD "",
        (i, rg).2.sets.map (fun rs => ⟨rs.label.getD "", rs.datatype, rs.entries⟩)⟩
      = ((rg.sets.map (fun rs => (⟨rs.label.getD "", rs.datatype, rs.entries⟩ : Set))).enum.map
          (fun q => targetLine i q.1 :: (q.2.as_list ++ ["&\n"]))).flatten := rfl
  rw [h1, List.mem_flatten] at hmem2
  obtain ⟨bl, hbl, hmem3⟩ := hmem2
  rw [List.mem_map] at hbl
  obtain ⟨q, hq2, rfl⟩ := hbl
  obtain ⟨j, st⟩ := q
  have hq3 := (List.mk_mem_enum_iff_getElem?).mp hq2
  rw [List.getElem?_map] at hq3
  cases hrs : rg.sets[j]? with
  | none => rw [hrs] at hq3; simp at hq3
  | some rs =>
    rw [hrs] at hq3
    simp only [Option.map_some'] at hq3
    have hst : st = ⟨rs.label.getD "", rs.datatype, rs.entries⟩ :=
      ((Option.some.injEq _ _).mp hq3).symm
    obtain ⟨hjlen, hjget⟩ := List.getElem?_eq_some.mp hrs
    have hrsmem : rs ∈ rg.sets := by rw [← hjget]; exact List.getElem_mem hjlen
    rcases List.mem_cons.mp hmem3 with heq | hmem4
    · exact targetLine_ne_empty _ _ heq.symm
    rcases List.mem_append.mp hmem4 with h5 | h5
    · rw [hst] at h5
      rcases List.mem_cons.mp h5 with heq | h6
      · exact typeLine_ne_empty _ heq.symm
      · obtain ⟨e, he, heq⟩ := List.mem_map.mp h6
        exact clean_entry_ne_empty e (Hfin rg hrgmem rs hrsmem e he) heq
    · rw [List.mem_singleton] at h5
      exact absurd h5.symm (by decide)

theorem labelBootstrap_no_empty (ts d : String) (dss : List RawGroup) :
    "" ∉ (mkGraph ts d dss).labelBootstrap := by
  intro hmem
  have h0 : (mkGraph ts d dss).labelBootstrap = ((mkGraph ts d dss).subtitle.enum.map
      (fun p => withGLine p.1 :: p.2 :: (mkGraph ts d dss).legend.getD p.1 [])).flatten := rfl
  rw [h0, List.mem_flatten] at hmem
  obtain ⟨bl, hbl, hmem2⟩ := hmem
  rw [List.mem_map] at hbl
  obtain ⟨p, hp, rfl⟩ := hbl
  obtain ⟨i, st⟩ := p
  rcases List.mem_cons.mp hmem2 with heq | hmem3
  · exact withGLine_ne_empty _ heq.symm
  rcases List.mem_cons.mp hmem3 with heq | hmem4
  · have hq : (dss.map (fun rg => subtitleLine (rg.label.getD "")))[i]? = some st :=
      (List.mk_mem_enum_iff_getElem?).mp hp
    rw [List.getElem?_map] at hq
    cases hrs : dss[i]? with
    | none => rw [hrs] at hq; simp at hq
    | some rg =>
      rw [hrs] at hq
      simp only [Option.map_some'] at hq
      have hst : st = subtitleLine (rg.label.getD "") := ((Option.some.injEq _ _).mp hq).symm
      rw [hst] at heq
      exact subtitleLine_ne_empty _ heq.symm
  · have hall : ∀ l ∈ (dss.map (fun rg => rg.sets.enum.map
        (fun q => legendLine q.1 (q.2.label.getD "")))).getD i [], l ≠ "" := by
      intro l hl
      rw [List.getD_eq_getElem?_getD, List.getElem?_map] at hl
      cases hrs : dss[i]? with
      | none => rw [hrs] at hl; simp at hl
      | some rg =>
        rw [hrs] at hl
        simp only [Option.map_some', Option.getD_some] at hl
        obtain ⟨q, _, rfl⟩ := List.mem_map.mp hl
        exact legendLine_ne_empty _ _
    exact hall "" hmem4 rfl

theorem mergeLines_no_empty (ts d : String) (dss : List RawGroup)
    (Hdata : "" ∉ (mkGraph ts d dss).dataLines) :
    ∀ (orig : List String) (g : Option ℤ) (out : List String),
      "" ∉ orig →
      mergeLines (mkGraph ts d dss) g orig = .ok out →
      "" ∉ out := by
  intro orig
  induction orig with
  | nil =>
    intro g out _ h
    rw [mergeLines] at h
    simp only [Except.ok.injEq] at h
    subst h
    intro hmem
    rcases List.mem_append.mp hmem with hm | hm
    · exact labelBootstrap_no_empty ts d dss hm
    · exact Hdata hm
  | cons line rest ih =>
    intro g out Horig h
    have Hline : line ≠ "" := by
      intro hc
      exact Horig (by rw [← hc]; exact List.mem_cons_self _ _)
    have Hrest : "" ∉ rest := fun hm => Horig (List.mem_cons_of_mem _ hm)
    rw [mergeLines] at h
    by_cases hwg : strStarts "@with g" line = true
    · rw [show lineGroup g line
          = (match parseIntPy ⟨removeWithG line.data⟩ with
             | none => Except.error (.badWithG line)
             | some k' => Except.ok (some k')) by simp [lineGroup, hwg]] at h
      cases hp : parseIntPy ⟨removeWithG line.data⟩ with
      | none => rw [hp] at h; simp at h
      | some k' =>
        rw [hp] at h
        have hnl : hasLegendPat line = false := withg_parse_not_legendPat line k' hp
        have hsubl : strStarts "@    subtitle \"" line = false :=
          strStarts_excl _ _ _ (by decide) (by decide) hwg
        have htgt : strStarts "@target G" line = false :=
          strStarts_excl _ _ _ (by decide) (by decide) hwg
        have hdesc : strStarts "@description" line = false :=
          strStarts_excl _ _ _ (by decide) (by decide) hwg
        have hpage : strStarts "@page size " line = false :=
          strStarts_excl _ _ _ (by decide) (by decide) hwg
        simp only [hnl, hsubl, htgt, hdesc, Bool.false_eq_true, if_false] at h
        rw [show (!(mkGraph ts d dss).description.isEmpty && strStarts "@page size " line)
            = false by rw [hpage]; simp] at h
        simp only [Bool.false_eq_true, if_false, List.nil_append] at h
        obtain ⟨out', hout', rfl⟩ := except_map_eq_ok _ _ _ h
        intro hmem
        rcases List.mem_cons.mp hmem with heq | hm
        · exact Hline heq.symm
        · exact ih (some k') out' Hrest hout' hm
    · rw [show lineGroup g line = .ok g by simp [lineGroup, hwg]] at h
      by_cases h1 : hasLegendPat line = true
      · cases g with
        | none => simp only [h1, if_true] at h; simp at h
        | some k =>
          simp only [h1, if_true] at h
          by_cases h2 : (mkGraph ts d dss).legendKey k (firstDigitRunS line) = true
          · simp only [h2, if_true] at h
            obtain ⟨out', hout', rfl⟩ := except_map_eq_ok _ _ _ h
            obtain ⟨hk, hs, hat⟩ := mkGraph_legendAt_eq ts d dss k (firstDigitRunS line) h2
            intro hmem
            rcases List.mem_cons.mp hmem with heq | hm
            · rw [hat] at heq
              exact legendLine_ne_empty _ _ heq.symm
            · exact ih (some k) out' Hrest hout' hm
          · simp only [h2, Bool.false_eq_true, if_false] at h
            exact ih (some k) out Hrest h
      · simp only [h1, Bool.false_eq_true, if_false] at h
        by_cases h2s : strStarts "@    subtitle \"" line = true
        · simp only [h2s, if_true] at h
          by_cases h3 : (mkGraph ts d dss).subtitleKey g = true
          · simp only [h3, if_true] at h
            obtain ⟨out', hout', rfl⟩ := except_map_eq_ok _ _ _ h
            cases g with
            | none => exact absurd h3 (by simp [Graph.subtitleKey])
            | some k =>
              obtain ⟨hk, hat⟩ := mkGraph_subtitleAt_eq ts d dss k h3
              intro hmem
              rcases List.mem_cons.mp hmem with heq | hm
              · rw [hat] at heq
                exact subtitleLine_ne_empty _ heq.symm
              · exact ih (some k) out' Hrest hout' hm
          · simp only [h3, Bool.false_eq_true, if_false] at h
            exact ih g out Hrest h
        · simp only [h2s, Bool.false_eq_true, if_false] at h
          by_cases h3t : strStarts "@target G" line = true
          · simp only [h3t, if_true, Except.ok.injEq] at h
            subst h
            exact Hdata
          · simp only [h3t, Bool.false_eq_true, if_false] at h
            by_cases h4 : strStarts "@description" line = true
            · simp only [h4, if_true] at h
              exact ih g out Hrest h
            · simp only [h4, Bool.false_eq_true, if_false] at h
              obtain ⟨out', hout', rfl⟩ := except_map_eq_ok _ _ _ h
              intro hmem
              rcases List.mem_cons.mp hmem with heq | hm
              · exact Hline heq.symm
              rcases List.mem_append.mp hm with hm2 | hm2
              · by_cases h5 : (!(mkGraph ts d dss).description.isEmpty
                    && strStarts "@page size " line) = true
                · rw [if_pos h5] at hm2
                  exact mkDescription_no_empty ts d "" hm2 rfl
                · rw [if_neg h5] at hm2
                  simp at hm2
              · exact ih g out' Hrest hout' hm2

/-! ## C1 — idempotence of the merge -/

/-- C1 as written is false on the code: with a group that has no sets, the
first run emits an empty data section (the original's `@target` line and
everything after it are discarded), and the second run — finding no `@target`
marker in the now-empty file — takes the bootstrap path and appends the label
block, so the second run's file differs from its input and the diff is
nonempty. -/
theorem c1_counterexample :
    create_file (mkGraph "T1" "d" [⟨some "G", []⟩]) ["@target G0.S0\n"] = .ok [] ∧
    create_file (mkGraph "T2" "d" [⟨some "G", []⟩]) [] =
      .ok ["@with g0\n", "@    subtitle \"G\"\n"] ∧
    get_file_differences [] ["@with g0\n", "@    subtitle \"G\"\n"] ≠ [] :=
  ⟨by rfl, by rfl, by decide⟩


/-! ## C1 infrastructure: the write/readlines round trip -/

theorem oneLineChars_spec : ∀ cs, oneLineChars cs = true → ∃ ds, cs = ds ++ ['\n'] ∧ '\n' ∉ ds := by
  intro cs
  induction cs with
  | nil => intro h; exact absurd h (by decide)
  | cons c cs2 ih =>
    intro h
    cases cs2 with
    | nil =>
      have hc : c = '\n' := by
        have h1 : oneLineChars [c] = decide (c = '\n') := rfl
        rw [h1] at h
        exact of_decide_eq_true h
      exact ⟨[], by rw [hc]; rfl, by simp⟩
    | cons c2 cs3 =>
      have hstep : oneLineChars (c :: c2 :: cs3)
          = (!(decide (c = '\n')) && oneLineChars (c2 :: cs3)) := rfl
      rw [hstep, Bool.and_eq_true] at h
      obtain ⟨hc, hrec⟩ := h
      obtain ⟨ds2, hds, hnin⟩ := ih hrec
      refine ⟨c :: ds2, by rw [List.cons_append, ← hds], ?_⟩
      intro hmem
      have hcne : c ≠ '\n' := by simpa using hc
      rcases List.mem_cons.mp hmem with heq | hmem2
      · exact hcne heq.symm
      · exact hnin hmem2

theorem oneLineChars_intro : ∀ ds, '\n' ∉ ds → oneLineChars (ds ++ ['\n']) = true := by
  intro ds
  induction ds with
  | nil => intro _; rfl
  | cons c cs ih =>
    intro hnin
    have hc : c ≠ '\n' := by
      intro hceq
      exact hnin (by rw [← hceq]; exact List.mem_cons_self _ _)
    obtain ⟨d2, ds2, h2⟩ : ∃ d2 ds2, cs ++ ['\n'] = d2 :: ds2 := by
      cases cs with
      | nil => exact ⟨'\n', [], rfl⟩
      | cons x xs => exact ⟨x, xs ++ ['\n'], rfl⟩
    rw [List.cons_append, h2]
    show (!(decide (c = '\n')) && oneLineChars (d2 :: ds2)) = true
    rw [← h2, ih (fun hm => hnin (List.mem_cons_of_mem _ hm))]
    simp [hc]

theorem isOneLine_withGLine (gi : ℕ) : isOneLine (withGLine gi) = true := by
  unfold isOneLine
  rw [withGLine_data]
  rw [show '@' :: 'w' :: 'i' :: 't' :: 'h' :: ' ' :: 'g' :: ((natStr gi).data ++ ['\n'])
      = ('@' :: 'w' :: 'i' :: 't' :: 'h' :: ' ' :: 'g' :: (natStr gi).data) ++ ['\n'] by simp]
  apply oneLineChars_intro
  intro hmem
  simp only [List.mem_cons] at hmem
  rcases hmem with h | h | h | h | h | h | h | h
  · exact absurd h (by decide)
  · exact absurd h (by decide)
  · exact absurd h (by decide)
  · exact absurd h (by decide)
  · exact absurd h (by decide)
  · exact absurd h (by decide)
  · exact absurd h (by decide)
  · exact absurd (natStr_all_digits gi '\n' h) (by decide)

theorem readlinesGo_line : ∀ (ds : List Char), '\n' ∉ ds → ∀ (rest acc : List Char),
    readlinesGo (ds ++ '\n' :: rest) acc
      = (⟨acc.reverse ++ (ds ++ ['\n'])⟩ : String) :: readlinesGo rest [] := by
  intro ds
  induction ds with
  | nil =>
    intro _ rest acc
    show readlinesGo ('\n' :: rest) acc = _
    rw [readlinesGo, if_pos rfl]
    simp [List.reverse_cons]
  | cons c cs ih =>
    intro hnin rest acc
    have hc : ¬ (c = '\n') := by
      intro hceq
      exact hnin (by rw [← hceq]; exact List.mem_cons_self _ _)
    show readlinesGo (c :: (cs ++ '\n' :: rest)) acc = _
    rw [readlinesGo, if_neg hc]
    rw [ih (fun hm => hnin (List.mem_cons_of_mem _ hm)) rest (c :: acc)]
    simp [List.reverse_cons, List.append_assoc]

/-- The write/read round trip between runs is the identity exactly on buffers
of proper lines (each nonempty, newline-terminated, without interior
newlines). -/
theorem readlines_round (v : List String) (H : ∀ l ∈ v, isOneLine l = true) :
    readlines (joinLines v) = v := by
  induction v with
  | nil => rfl
  | cons l v2 ih =>
    obtain ⟨ds, hds, hnin⟩ := oneLineChars_spec l.data (H l (List.mem_cons_self _ _))
    have h1 : (joinLines (l :: v2)).data = l.data ++ (joinLines v2).data := by
      show ((l :: v2).map String.data).flatten = _
      rw [List.map_cons, List.flatten_cons]
      rfl
    show readlinesGo (joinLines (l :: v2)).data [] = l :: v2
    rw [h1, hds]
    rw [show (ds ++ ['\n']) ++ (joinLines v2).data
        = ds ++ ('\n' :: (joinLines v2).data) by simp]
    rw [readlinesGo_line ds hnin ((joinLines v2).data) []]
    rw [show (⟨List.reverse [] ++ (ds ++ ['\n'])⟩ : String) = l by rw [← hds]; rfl]
    rw [show readlinesGo (joinLines v2).data [] = v2 from
      ih (fun x hx => H x (List.mem_cons_of_mem _ hx))]

/-! ## C1 infrastructure: line properties preserved by the merge -/

theorem mergeLines_all (gr : Graph) (P : String → Prop)
    (HPdata : ∀ l ∈ gr.dataLines, P l)
    (HPboot : ∀ l ∈ gr.labelBootstrap, P l)
    (HPdesc : ∀ l ∈ gr.description, P l)
    (HPleg : ∀ (k : ℤ) (s : ℕ), gr.legendKey k s = true → P (gr.legendAt k s))
    (HPsub : ∀ g, gr.subtitleKey g = true → P (gr.subtitleAt g)) :
    ∀ (orig : List String) (g : Option ℤ) (out : List String),
      (∀ l ∈ orig, P l) → mergeLines gr g orig = .ok out → ∀ l ∈ out, P l := by
  intro orig
  induction orig with
  | nil =>
    intro g out _ h
    rw [mergeLines] at h
    simp only [Except.ok.injEq] at h
    subst h
    intro l hmem
    rcases List.mem_append.mp hmem with hm | hm
    · exact HPboot l hm
    · exact HPdata l hm
  | cons line rest ih =>
    intro g out Horig h
    have Hline : P line := Horig line (List.mem_cons_self _ _)
    have Hrest : ∀ l ∈ rest, P l := fun l hm => Horig l (List.mem_cons_of_mem _ hm)
    rw [mergeLines] at h
    by_cases hwg : strStarts "@with g" line = true
    · rw [show lineGroup g line
          = (match parseIntPy ⟨removeWithG line.data⟩ with
             | none => Except.error (.badWithG line)
             | some k2 => Except.ok (some k2)) by simp [lineGroup, hwg]] at h
      cases hp : parseIntPy ⟨removeWithG line.data⟩ with
      | none => rw [hp] at h; simp at h
      | some k2 =>
        rw [hp] at h
        have hnl : hasLegendPat line = false := withg_parse_not_legendPat line k2 hp
        have hsubl : strStarts "@    subtitle \"" line = false :=
          strStarts_excl _ _ _ (by decide) (by decide) hwg
        have htgt : strStarts "@target G" line = false :=
          strStarts_excl _ _ _ (by decide) (by decide) hwg
        have hdesc : strStarts "@description" line = false :=
          strStarts_excl _ _ _ (by decide) (by decide) hwg
        have hpage : strStarts "@page size " line = false :=
          strStarts_excl _ _ _ (by decide) (by decide) hwg
        simp only [hnl, hsubl, htgt, hdesc, Bool.false_eq_true, if_false] at h
        rw [show (!gr.description.isEmpty && strStarts "@page size " line)
            = false by rw [hpage]; simp] at h
        simp only [Bool.false_eq_true, if_false, List.nil_append] at h
        obtain ⟨out2, hout2, rfl⟩ := except_map_eq_ok _ _ _ h
        intro l hmem
        rcases List.mem_cons.mp hmem with heq | hm
        · rw [heq]; exact Hline
        · exact ih (some k2) out2 Hrest hout2 l hm
    · rw [show lineGroup g line = .ok g by simp [lineGroup, hwg]] at h
      by_cases h1 : hasLegendPat line = true
      · cases g with
        | none => simp only [h1, if_true] at h; simp at h
        | some k =>
          simp only [h1, if_true] at h
          by_cases h2 : gr.legendKey k (firstDigitRunS line) = true
          · simp only [h2, if_true] at h
            obtain ⟨out2, hout2, rfl⟩ := except_map_eq_ok _ _ _ h
            intro l hmem
            rcases List.mem_cons.mp hmem with heq | hm
            · rw [heq]; exact HPleg k (firstDigitRunS line) h2
            · exact ih (some k) out2 Hrest hout2 l hm
          · simp only [h2, Bool.false_eq_true, if_false] at h
            exact ih (some k) out Hrest h
      · simp only [h1, Bool.false_eq_true, if_false] at h
        by_cases h2s : strStarts "@    subtitle \"" line = true
        · simp only [h2s, if_true] at h
          by_cases h3 : gr.subtitleKey g = true
          · simp only [h3, if_true] at h
            obtain ⟨out2, hout2, rfl⟩ := except_map_eq_ok _ _ _ h
            intro l hmem
            rcases List.mem_cons.mp hmem with heq | hm
            · rw [heq]; exact HPsub g h3
            · exact ih g out2 Hrest hout2 l hm
          · simp only [h3, Bool.false_eq_true, if_false] at h
            exact ih g out Hrest h
        · simp only [h2s, Bool.false_eq_true, if_false] at h
          by_cases h3t : strStarts "@target G" line = true
          · simp only [h3t, if_true, Except.ok.injEq] at h
            subst h
            exact HPdata
          · simp only [h3t, Bool.false_eq_true, if_false] at h
            by_cases h4 : strStarts "@description" line = true
            · simp only [h4, if_true] at h
              exact ih g out Hrest h
            · simp only [h4, Bool.false_eq_true, if_false] at h
              obtain ⟨out2, hout2, rfl⟩ := except_map_eq_ok _ _ _ h
              intro l hmem
              rcases List.mem_cons.mp hmem with heq | hm
              · rw [heq]; exact Hline
              rcases List.mem_append.mp hm with hm2 | hm2
              · by_cases h5 : (!gr.description.isEmpty
                    && strStarts "@page size " line) = true
                · rw [if_pos h5] at hm2
                  exact HPdesc l hm2
                · rw [if_neg h5] at hm2
                  simp at hm2
              · exact ih g out2 Hrest hout2 l hm2

theorem mkGraph_subtitleAt_oneLine (ts d : String) (dss : List RawGroup)
    (Hsubl : ∀ rg ∈ dss, isOneLine (subtitleLine (rg.label.getD "")) = true) :
    ∀ g, (mkGraph ts d dss).subtitleKey g = true →
      isOneLine ((mkGraph ts d dss).subtitleAt g) = true := by
  intro g hkey
  cases g with
  | none => exact absurd hkey (by simp [Graph.subtitleKey])
  | some k =>
    obtain ⟨hk, hat⟩ := mkGraph_subtitleAt_eq ts d dss k hkey
    rw [hat]
    exact Hsubl _ (List.getElem_mem hk)

theorem mkGraph_legendAt_oneLine (ts d : String) (dss : List RawGroup)
    (Hleg : ∀ rg ∈ dss, ∀ p ∈ rg.sets.enum,
      isOneLine (legendLine p.1 (p.2.label.getD "")) = true) :
    ∀ (k : ℤ) (s : ℕ), (mkGraph ts d dss).legendKey k s = true →
      isOneLine ((mkGraph ts d dss).legendAt k s) = true := by
  intro k s hkey
  obtain ⟨hk, hs, hat⟩ := mkGraph_legendAt_eq ts d dss k s hkey
  rw [hat]
  exact Hleg (dss.get ⟨k.toNat, hk⟩) (List.getElem_mem hk)
    (s, (dss.get ⟨k.toNat, hk⟩).sets.get ⟨s, hs⟩)
    ((List.mk_mem_enum_iff_getElem?).mpr (List.getElem?_eq_getElem hs))

theorem labelBootstrap_oneLine (ts d : String) (dss : List RawGroup)
    (Hsubl : ∀ rg ∈ dss, isOneLine (subtitleLine (rg.label.getD "")) = true)
    (Hleg : ∀ rg ∈ dss, ∀ p ∈ rg.sets.enum,
      isOneLine (legendLine p.1 (p.2.label.getD "")) = true) :
    ∀ l ∈ (mkGraph ts d dss).labelBootstrap, isOneLine l = true := by
  intro l hmem
  have h0 : (mkGraph ts d dss).labelBootstrap = ((mkGraph ts d dss).subtitle.enum.map
      (fun p => withGLine p.1 :: p.2 :: (mkGraph ts d dss).legend.getD p.1 [])).flatten := rfl
  rw [h0, List.mem_flatten] at hmem
  obtain ⟨bl, hbl, hmem2⟩ := hmem
  rw [List.mem_map] at hbl
  obtain ⟨p, hp, rfl⟩ := hbl
  obtain ⟨i, st⟩ := p
  rcases List.mem_cons.mp hmem2 with heq | hmem3
  · rw [heq]; exact isOneLine_withGLine _
  rcases List.mem_cons.mp hmem3 with heq | hmem4
  · have hq : (dss.map (fun rg => subtitleLine (rg.label.getD "")))[i]? = some st :=
      (List.mk_mem_enum_iff_getElem?).mp hp
    rw [List.getElem?_map] at hq
    cases hrs : dss[i]? with
    | none => rw [hrs] at hq; simp at hq
    | some rg =>
      rw [hrs] at hq
      simp only [Option.map_some'] at hq
      have hst : st = subtitleLine (rg.label.getD "") := ((Option.some.injEq _ _).mp hq).symm
      obtain ⟨hilen, hget⟩ := List.getElem?_eq_some.mp hrs
      have hrgmem : rg ∈ dss := by rw [← hget]; exact List.getElem_mem hilen
      rw [heq, hst]
      exact Hsubl rg hrgmem
  · have hl2 : l ∈ (dss.map (fun rg => rg.sets.enum.map
        (fun q => legendLine q.1 (q.2.label.getD "")))).getD i [] := hmem4
    rw [List.getD_eq_getElem?_getD, List.getElem?_map] at hl2
    cases hrs : dss[i]? with
    | none => rw [hrs] at hl2; simp at hl2
    | some rg =>
      rw [hrs] at hl2
      simp only [Option.map_some', Option.getD_some] at hl2
      obtain ⟨q, hq2, rfl⟩ := List.mem_map.mp hl2
      obtain ⟨hilen, hget⟩ := List.getElem?_eq_some.mp hrs
      have hrgmem : rg ∈ dss := by rw [← hget]; exact List.getElem_mem hilen
      exact Hleg rg hrgmem q hq2

/-- C1 amended: for a model whose data section is nonempty (or an empty
model), whose labels and description inject no legend-pattern text, and all of
whose emitted lines — data section, subtitle and legend lines, description
block — as well as the original file lines are proper single lines (nonempty,
newline-terminated, no interior newline), a second run of `Graph.create_file`
with identical input data (fresh timestamp `t2`) on the file written by the
first run — re-read through the modelled write (`join` over the empty string,
source line 378) and `readlines` (source line 333), a round trip that the
single-line condition makes the identity — succeeds and reproduces the file
except for timestamp-description lines, and `get_file_differences` reports no
changes. -/
theorem c1_idempotence (t1 t2 d : String) (dss : List RawGroup)
    (orig out1 : List String)
    (Hsub : ∀ rg ∈ dss, hasLegendPat (subtitleLine (rg.label.getD "")) = false)
    (Hd1 : ∀ l ∈ mkDescription t1 d, hasLegendPat l = false)
    (Hne : (mkGraph t1 d dss).dataLines ≠ [] ∨ dss = [])
    (Hsubl : ∀ rg ∈ dss, isOneLine (subtitleLine (rg.label.getD "")) = true)
    (Hleg : ∀ rg ∈ dss, ∀ p ∈ rg.sets.enum,
      isOneLine (legendLine p.1 (p.2.label.getD "")) = true)
    (Hdesc1 : ∀ l ∈ mkDescription t1 d, isOneLine l = true)
    (Hdata1 : ∀ l ∈ (mkGraph t1 d dss).dataLines, isOneLine l = true)
    (Horig : ∀ l ∈ orig, isOneLine l = true)
    (h1 : create_file (mkGraph t1 d dss) orig = .ok out1) :
    readlines (joinLines out1) = out1 ∧
    ∃ out2, create_file (mkGraph t2 d dss) (readlines (joinLines out1)) = .ok out2 ∧
      filterTs out2 = filterTs out1 ∧
      get_file_differences out1 out2 = [] := by
  have hall : ∀ l ∈ out1, isOneLine l = true :=
    mergeLines_all (mkGraph t1 d dss) (fun l => isOneLine l = true)
      Hdata1
      (labelBootstrap_oneLine t1 d dss Hsubl Hleg)
      Hdesc1
      (mkGraph_legendAt_oneLine t1 d dss Hleg)
      (mkGraph_subtitleAt_oneLine t1 d dss Hsubl)
      orig none out1 Horig h1
  have hrt : readlines (joinLines out1) = out1 := readlines_round out1 hall
  refine ⟨hrt, ?_⟩
  obtain ⟨out2, hrun, hfil⟩ := run2_sim t1 t2 d dss Hsub Hd1 Hne orig none out1 h1
  refine ⟨out2, ?_, hfil, ?_⟩
  · rw [hrt]
    exact hrun
  · simp [get_file_differences, context_diff, hfil]

theorem c1_witness :
    readlines (joinLines ["@target G0.S0\n", "@type xy\n", "1 2\n", "&\n"])
        = ["@target G0.S0\n", "@type xy\n", "1 2\n", "&\n"] ∧
    ∃ out2, create_file (mkGraph "T2" "d"
          [⟨some "g1", [⟨some "A", "xy", [[PyVal.int 1, PyVal.int 2]]⟩]⟩])
        (readlines (joinLines ["@target G0.S0\n", "@type xy\n", "1 2\n", "&\n"]))
        = .ok out2 ∧
      filterTs out2 = filterTs ["@target G0.S0\n", "@type xy\n", "1 2\n", "&\n"] ∧
      get_file_differences ["@target G0.S0\n", "@type xy\n", "1 2\n", "&\n"] out2 = [] :=
  c1_idempotence "T1" "T2" "d"
    [⟨some "g1", [⟨some "A", "xy", [[PyVal.int 1, PyVal.int 2]]⟩]⟩]
    ["@target G0.S0\n"] ["@target G0.S0\n", "@type xy\n", "1 2\n", "&\n"]
    (by decide) (by decide) (Or.inl (by decide)) (by decide) (by decide) (by decide)
    (by decide) (by decide) (by rfl)

/-! ## C3 — label overwrite -/

/-- C3 as written is false on the code: its file-level universal fails for a
(Group,Set) pair whose legend line lies after the first data-section marker —
the scan breaks at the `@target G` line (source line 356), discarding the old
legend line and emitting no replacement, although the pair exists in the new
model and its legend line is in the old file. -/
theorem c3_counterexample :
    create_file
        (mkGraph "T" "d" [⟨some "g1", [⟨some "NEW", "xy", [[PyVal.int 1, PyVal.int 2]]⟩]⟩])
        ["@with g0\n", "@target G0.S0\n", "@    s0 legend  \"old\"\n"]
      = .ok ["@with g0\n", "@target G0.S0\n", "@type xy\n", "1 2\n", "&\n"] ∧
    hasLegendPat "@    s0 legend  \"old\"\n" = true ∧
    (mkGraph "T" "d"
        [⟨some "g1", [⟨some "NEW", "xy", [[PyVal.int 1, PyVal.int 2]]⟩]⟩]).legendKey 0
        (firstDigitRunS "@    s0 legend  \"old\"\n") = true ∧
    (mkGraph "T" "d"
        [⟨some "g1", [⟨some "NEW", "xy", [[PyVal.int 1, PyVal.int 2]]⟩]⟩]).legendAt 0
        (firstDigitRunS "@    s0 legend  \"old\"\n")
      ∉ ["@with g0\n", "@target G0.S0\n", "@type xy\n", "1 2\n", "&\n"] ∧
    ("@    s0 legend  \"old\"\n" : String)
      ∉ ["@with g0\n", "@target G0.S0\n", "@type xy\n", "1 2\n", "&\n"] :=
  ⟨by rfl, by decide, by decide, by decide, by decide⟩

/-- C3 amended: the overwrite/drop behavior holds for every legend line the
scan actually reaches — on a legend-matching line under current group `k`, the
merge emits the new legend line `self.legend[k][s]` in place of the old line
when `(k, s)` is in the model, and emits nothing (the old line is dropped)
otherwise, with the stored line built from the newly supplied label — but a
legend line at or after the first `@target G` line is never reached: the break
discards it and everything after it, emitting only the new data section, so no
replacement appears for such a pair. -/
theorem c3_label_overwrite :
    (∀ (gr : Graph) (k : ℤ) (line : String) (rest : List String),
        hasLegendPat line = true → strStarts "@with g" line = false →
        mergeLines gr (some k) (line :: rest)
          = if gr.legendKey k (firstDigitRunS line) then
              (mergeLines gr (some k) rest).map
                (fun out => gr.legendAt k (firstDigitRunS line) :: out)
            else mergeLines gr (some k) rest) ∧
    (∀ (ts d : String) (dss : List RawGroup) (gi si : ℕ) (rg : RawGroup) (rs : RawSet),
        dss.get? gi = some rg → rg.sets.get? si = some rs →
        (mkGraph ts d dss).legendAt (gi : ℤ) si = legendLine si (rs.label.getD "")) ∧
    (∀ (gr : Graph) (g : Option ℤ) (tline : String) (mid : List String),
        strStarts "@target G" tline = true → hasLegendPat tline = false →
        mergeLines gr g (tline :: mid) = .ok gr.dataLines) := by
  refine ⟨?_, ?_, ?_⟩
  · intro gr k line rest hpat hwg
    rw [mergeLines]
    rw [show lineGroup (some k) line = .ok (some k) by simp [lineGroup, hwg]]
    simp only [hpat, if_true]
  · intro ts d dss gi si rg rs hg hs
    have hg2 : dss[gi]? = some rg := by rw [← List.get?_eq_getElem?]; exact hg
    have hs2 : rg.sets[si]? = some rs := by rw [← List.get?_eq_getElem?]; exact hs
    simp [Graph.legendAt, mkGraph, List.getD_eq_getElem?_getD, List.getElem?_map,
      List.getElem?_enum, hg2, hs2]
  · intro gr g tline mid ht hnp
    rw [mergeLines]
    rw [show lineGroup g tline = .ok g by
      simp [lineGroup, strStarts_excl "@target G" "@with g" _ (by decide) (by decide) ht]]
    have hsub : strStarts "@    subtitle \"" tline = false :=
      strStarts_excl "@target G" "@    subtitle \"" _ (by decide) (by decide) ht
    simp only [hnp, hsub, Bool.false_eq_true, if_false, ht, if_true]

theorem c3_witness :
    (mergeLines (mkGraph "T" "d" [⟨some "g1", [⟨some "A", "xy", [[PyVal.int 1]]⟩]⟩]) (some 0)
        ["@    s0 legend  \"old\"\n"]
      = if (mkGraph "T" "d" [⟨some "g1", [⟨some "A", "xy", [[PyVal.int 1]]⟩]⟩]).legendKey 0
            (firstDigitRunS "@    s0 legend  \"old\"\n") then
          (mergeLines (mkGraph "T" "d" [⟨some "g1", [⟨some "A", "xy", [[PyVal.int 1]]⟩]⟩])
              (some 0) []).map
            (fun out =>
              (mkGraph "T" "d" [⟨some "g1", [⟨some "A", "xy", [[PyVal.int 1]]⟩]⟩]).legendAt 0
                (firstDigitRunS "@    s0 legend  \"old\"\n") :: out)
        else mergeLines (mkGraph "T" "d" [⟨some "g1", [⟨some "A", "xy", [[PyVal.int 1]]⟩]⟩])
            (some 0) []) ∧
    mergeLines (mkGraph "T" "d" [⟨some "g1", [⟨some "A", "xy", [[PyVal.int 1]]⟩]⟩]) (some 0)
        ["@target G0.S0\n", "@    s0 legend  \"old\"\n"]
      = .ok (mkGraph "T" "d" [⟨some "g1", [⟨some "A", "xy", [[PyVal.int 1]]⟩]⟩]).dataLines :=
  ⟨c3_label_overwrite.1 _ 0 _ [] (by decide) (by decide),
   c3_label_overwrite.2.2 _ (some 0) _ ["@    s0 legend  \"old\"\n"] (by decide) (by decide)⟩

end SimpleGrace
